import Mathlib

/-!
# Verification of the Silhouette ARM instrumentation passes

This file gives a shallow embedding, in Lean 4, of the predication-aware
instruction-rewriting engine of the Silhouette compiler passes
(`lib/Target/ARM/ARMSilhouette*.cpp`) and proves or refutes the stated
properties of that code.

Conventions used throughout:

* LLVM `unsigned` values that are used as 4-bit IT masks are modelled as
  `Nat`, with the source's `Mask & 0xf` rendered as `mask % 16`.
* ARM condition codes (`ARMCC::CondCodes`) are modelled as `Nat`
  (EQ = 0, NE = 1, ..., AL = 14).  `ARMCC::getOppositeCondition` flips the
  least significant bit for every condition that may head an IT block
  (EQ ↔ NE, HS ↔ LO, ...), which is modelled as `xor 1`.
* ARM core registers are modelled as `Nat` with the architectural numbering
  R0 = 0, ..., R12 = 12, SP = 13, LR = 14, PC = 15; `ARM::NoRegister` is
  modelled as 16 (a value distinct from every core register).  The source
  relies on `R4`, `R4+1`, `R4+2`, ... being consecutive registers, which
  this numbering reflects.
* In-place machine-IR mutation is modelled by functions from the old
  shape of the affected instructions to the new shape.
-/

namespace Silhouette

/-! ## The IT-block mask codec (`ARMSilhouetteInstrumentor.cpp`)

`getITBlockSize`, `decodeITMask` and `encodeITMask` are the pure helpers
at lines 44-60 and 382-434 of `ARMSilhouetteInstrumentor.cpp`.
-/

/-- `ARMSilhouetteInstrumentor::getITBlockSize` (lines 44-60): the number of
predicated instructions an IT instruction covers, derived from the low set
bit of the 4-bit mask.  The source asserts `Mask != 0`; on a zero mask the
`else` chain of the source returns 1, which this total function mirrors. -/
def getITBlockSize (mask : Nat) : Nat :=
  let m := mask % 16
  if m % 2 = 1 then 4
  else if m / 2 % 2 = 1 then 3
  else if m / 4 % 2 = 1 then 2
  else 1

/-- The `size` variable computed by the scan loop inside
`ARMSilhouetteInstrumentor::decodeITMask` (lines 388-394): it starts at 4 and
is decremented once for each clear low bit, reaching 0 for a zero mask
(whereas `getITBlockSize` never returns 0). -/
def maskSize (mask : Nat) : Nat :=
  let m := mask % 16
  if m % 2 = 1 then 4
  else if m / 2 % 2 = 1 then 3
  else if m / 4 % 2 = 1 then 2
  else if m / 8 % 2 = 1 then 1
  else 0

/-- `ARMSilhouetteInstrumentor::decodeITMask` (lines 382-400): decode a 4-bit
IT mask into the list of booleans saying, for each instruction of the block,
whether it has the same predicate as the first one (the first entry is always
`true`).  The source pushes, for `i = 3` down to `4 - size + 1`, the value
`(Mask & (1 << i)) == 0`; entry `j` of the tail (0-based) therefore tests bit
`3 - j`. -/
def decodeITMask (mask : Nat) : List Bool :=
  let m := mask % 16
  true :: (List.range (maskSize m - 1)).map (fun j => decide (m / 2 ^ (3 - j) % 2 = 0))

/-- `ARMSilhouetteInstrumentor::encodeITMask` (lines 419-434): encode a list of
same/complement booleans back into the 4-bit mask.  The source folds over
entries 1.. of the list with `Mask |= (b ? 0 : 1); Mask <<= 1`, then
`Mask |= 1; Mask <<= (4 - size)`. -/
def encodeITMask (l : List Bool) : Nat :=
  let m := (l.drop 1).foldl (fun acc b => (acc ||| (if b then 0 else 1)) <<< 1) 0
  (m ||| 1) <<< (4 - l.length)

/-- `ARMCC::getOppositeCondition`: for every condition code that may appear as
the first condition of an IT block (EQ..LE, i.e. 0..13) the opposite condition
is obtained by flipping the least significant bit. -/
def oppositeCondition (c : Nat) : Nat := c ^^^ 1

/-- The effective condition of an instruction whose same/complement flag
relative to the block's first condition is `b`. -/
def effCond (firstCond : Nat) (b : Bool) : Nat :=
  if b then firstCond else oppositeCondition firstCond

/-- Replay the governance of a single IT header `(firstCond, mask)`: the list
of effective conditions of the instructions it covers, obtained by decoding
the mask. -/
def replayIT (firstCond mask : Nat) : List Nat :=
  (decodeITMask mask).map (effCond firstCond)

theorem oppositeCondition_involutive (c : Nat) :
    oppositeCondition (oppositeCondition c) = c := by
  simp [oppositeCondition, Nat.xor_assoc]

theorem decodeITMask_length (mask : Nat) (h : mask % 16 ≠ 0) :
    (decodeITMask mask).length = maskSize mask := by
  have h16 : mask % 16 < 16 := Nat.mod_lt _ (by norm_num)
  interval_cases h' : mask % 16 <;> simp_all [decodeITMask, maskSize]

theorem maskSize_le_four (mask : Nat) : maskSize mask ≤ 4 := by
  have h16 : mask % 16 < 16 := Nat.mod_lt _ (by norm_num)
  interval_cases h' : mask % 16 <;> simp_all [maskSize]

theorem maskSize_pos (mask : Nat) (h : mask % 16 ≠ 0) : 1 ≤ maskSize mask := by
  have h16 : mask % 16 < 16 := Nat.mod_lt _ (by norm_num)
  interval_cases h' : mask % 16 <;> simp_all [maskSize]

/-- Exhaustive list of all valid deque representations of an IT mask:
length 1 to 4, first entry `true`. -/
def allDQMasks : List (List Bool) :=
  [[true],
   [true, false], [true, true],
   [true, false, false], [true, false, true], [true, true, false],
   [true, true, true],
   [true, false, false, false], [true, false, false, true],
   [true, false, true, false], [true, false, true, true],
   [true, true, false, false], [true, true, false, true],
   [true, true, true, false], [true, true, true, true]]

theorem mem_allDQMasks (l : List Bool) (hne : l ≠ []) (hlen : l.length ≤ 4)
    (hhead : l.headD false = true) : l ∈ allDQMasks := by
  match l with
  | [] => exact absurd rfl hne
  | a :: t =>
    simp only [List.headD_cons] at hhead
    subst hhead
    match t with
    | [] => simp [allDQMasks]
    | [b] => cases b <;> simp [allDQMasks]
    | [b, c] => cases b <;> cases c <;> simp [allDQMasks]
    | [b, c, d] => cases b <;> cases c <;> cases d <;> simp [allDQMasks]
    | _ :: _ :: _ :: _ :: _ :: _ => simp at hlen

theorem decode_encode_of_mem (l : List Bool) (h : l ∈ allDQMasks) :
    decodeITMask (encodeITMask l) = l := by
  fin_cases h <;> rfl

/-- `encodeITMask` then `decodeITMask` reproduces every valid deque
representation (nonempty, length ≤ 4, first entry `true`). -/
theorem decode_encode (l : List Bool) (hne : l ≠ []) (hlen : l.length ≤ 4)
    (hhead : l.headD false = true) : decodeITMask (encodeITMask l) = l :=
  decode_encode_of_mem l (mem_allDQMasks l hne hlen hhead)

theorem encode_decode (mask : Nat) (hlt : mask < 16) (hne : mask ≠ 0) :
    encodeITMask (decodeITMask mask) = mask := by
  interval_cases mask <;> simp_all <;> rfl

/-! ## Governed insertion (`insertInstsBefore` / `insertInstsAfter`)

Lines 170-232 and 248-311 of `ARMSilhouetteInstrumentor.cpp`.  Both methods
decode the governing header's mask into a same/complement list, splice the
new instructions' flags into it, then walk the grown range in chunks of at
most 4 instructions, emitting one fresh IT per chunk (flipping the chunk's
flags and using the opposite first condition when the chunk starts with a
complement-flagged instruction), and finally erase the original header.

The model below works on the same/complement list: a governed block is the
pair `(firstCond, mask)`, and the effect of either method on the headers is
a list of `(cond, mask)` pairs, one per emitted IT.
-/

/-- The chunking loop at lines 209-227 / 288-306: split the grown
same/complement list into consecutive runs of at most 4 entries. -/
def chunkITMask : List Bool → List (List Bool)
  | [] => []
  | [a] => [[a]]
  | [a, b] => [[a, b]]
  | [a, b, c] => [[a, b, c]]
  | a :: b :: c :: d :: rest => [a, b, c, d] :: chunkITMask rest

/-- The per-chunk header emission at lines 216-225 / 295-304: if the chunk's
first flag is `false`, negate every flag and use the opposite of the original
first condition; then encode the (possibly flipped) flags as the new mask. -/
def emitIT (firstCond : Nat) (chunk : List Bool) : Nat × Nat :=
  if chunk.headD true then (firstCond, encodeITMask chunk)
  else (oppositeCondition firstCond, encodeITMask (chunk.map not))

/-- Replay the governance of a list of emitted IT headers, in order. -/
def replayITs (its : List (Nat × Nat)) : List Nat :=
  its.flatMap (fun p => replayIT p.1 p.2)

/-- `ARMSilhouetteInstrumentor::insertInstsBefore` (lines 170-232), restricted
to its effect on the IT headers when `MI` sits at 1-based `distance` inside a
block `(firstCond, mask)` and `m` new instructions are inserted before `MI`:
the new flags (copies of `DQMask[distance-1]`) are inserted at position
`distance - 1` of the decoded list (line 201-206), and the grown list is
re-chunked and re-emitted (lines 209-227). -/
def insertInstsBeforeITs (firstCond mask distance m : Nat) : List (Nat × Nat) :=
  let dq := decodeITMask mask
  let same := dq.getD (distance - 1) true
  let dq' := dq.take (distance - 1) ++ List.replicate m same ++ dq.drop (distance - 1)
  (chunkITMask dq').map (emitIT firstCond)

/-- `ARMSilhouetteInstrumentor::insertInstsAfter` (lines 248-311), same as
`insertInstsBeforeITs` except that the new flags are inserted at position
`distance` of the decoded list (the iterator is advanced `distance` times at
lines 281-284, so the copies land after `MI`'s own flag). -/
def insertInstsAfterITs (firstCond mask distance m : Nat) : List (Nat × Nat) :=
  let dq := decodeITMask mask
  let same := dq.getD (distance - 1) true
  let dq' := dq.take distance ++ List.replicate m same ++ dq.drop distance
  (chunkITMask dq').map (emitIT firstCond)

/-- `ARMSilhouetteInstrumentor::removeInst` (lines 325-363), restricted to its
effect on the governing header when `MI` sits at 1-based `distance`: erase
`MI`'s entry from the decoded list; if the list becomes empty the header is
erased (`none`); otherwise, if the new first entry is a complement flag, every
flag is negated and the first condition flipped, and the list is re-encoded. -/
def removeInstIT (firstCond mask distance : Nat) : Option (Nat × Nat) :=
  let dq := decodeITMask mask
  let dq' := dq.take (distance - 1) ++ dq.drop distance
  if dq' = [] then none
  else if dq'.headD true then some (firstCond, encodeITMask dq')
  else some (oppositeCondition firstCond, encodeITMask (dq'.map not))

theorem chunkITMask_flatten (l : List Bool) : (chunkITMask l).flatten = l := by
  induction l using chunkITMask.induct <;> simp_all [chunkITMask]

theorem chunkITMask_mem (l : List Bool) (c : List Bool) (h : c ∈ chunkITMask l) :
    c ≠ [] ∧ c.length ≤ 4 := by
  induction l using chunkITMask.induct <;> simp_all [chunkITMask] <;>
    rcases h with h | h <;> simp_all

/-- Replaying one emitted header reproduces the effective conditions of its
chunk. -/
theorem replay_emitIT (firstCond : Nat) (chunk : List Bool) (hne : chunk ≠ [])
    (hlen : chunk.length ≤ 4) :
    replayIT (emitIT firstCond chunk).1 (emitIT firstCond chunk).2 =
      chunk.map (effCond firstCond) := by
  match chunk with
  | [] => exact absurd rfl hne
  | a :: t =>
    cases a with
    | true =>
      have hd : decodeITMask (encodeITMask (true :: t)) = true :: t :=
        decode_encode _ (by simp) hlen (by simp)
      simp [emitIT, replayIT, hd]
    | false =>
      have hd : decodeITMask (encodeITMask ((false :: t).map not)) =
          (false :: t).map not :=
        decode_encode _ (by simp) (by simpa using hlen) (by simp)
      simp only [emitIT, List.headD_cons, Bool.false_eq_true, if_false, replayIT, hd]
      rw [List.map_map]
      refine List.map_congr_left ?_
      intro b _
      cases b <;> simp [effCond, oppositeCondition_involutive]

/-- Replaying all headers emitted for a chunked list reproduces the effective
conditions of the whole list. -/
theorem replay_chunks (firstCond : Nat) (l : List Bool) :
    replayITs ((chunkITMask l).map (emitIT firstCond)) =
      l.map (effCond firstCond) := by
  induction l using chunkITMask.induct with
  | case1 => rfl
  | case2 a =>
    simpa [replayITs, chunkITMask] using replay_emitIT firstCond [a] (by simp) (by simp)
  | case3 a b =>
    simpa [replayITs, chunkITMask] using
      replay_emitIT firstCond [a, b] (by simp) (by simp)
  | case4 a b c =>
    simpa [replayITs, chunkITMask] using
      replay_emitIT firstCond [a, b, c] (by simp) (by simp)
  | case5 a b c d rest ih =>
    have h4 := replay_emitIT firstCond [a, b, c, d] (by simp) (by simp)
    simp only [chunkITMask, List.map_cons, replayITs, List.flatMap_cons] at *
    rw [h4, ih]
    simp

theorem effCond_getD (firstCond : Nat) (l : List Bool) (n : Nat) (h : n < l.length) :
    effCond firstCond (l.getD n true) = (l.map (effCond firstCond)).getD n 0 := by
  rw [List.getD_eq_getElem l true h,
      List.getD_eq_getElem (l.map (effCond firstCond)) 0 (by simpa using h),
      List.getElem_map]

theorem emitted_size_bounds (firstCond : Nat) (l : List Bool)
    (p : Nat × Nat) (hp : p ∈ (chunkITMask l).map (emitIT firstCond)) :
    1 ≤ (decodeITMask p.2).length ∧ (decodeITMask p.2).length ≤ 4 := by
  rcases List.mem_map.mp hp with ⟨c, hc, rfl⟩
  obtain ⟨hne, hlen⟩ := chunkITMask_mem l c hc
  match c, hne with
  | a :: t, _ =>
    cases a with
    | true =>
      have hd : decodeITMask (encodeITMask (true :: t)) = true :: t :=
        decode_encode _ (by simp) hlen (by simp)
      simp only [emitIT, List.headD_cons, if_true, hd]
      simpa using hlen
    | false =>
      have hd : decodeITMask (encodeITMask ((false :: t).map not)) =
          (false :: t).map not :=
        decode_encode _ (by simp) (by simpa using hlen) (by simp)
      simp only [emitIT, List.headD_cons, Bool.false_eq_true, if_false, hd]
      simpa using hlen

/-- **C1** (governed-insertion conservation).  For every IT block
`(firstCond, mask)` of 1-4 predicated instructions and every governed
instruction `MI` at 1-based `distance`, inserting `m ≥ 1` new instructions
before `MI` (`insertInstsBefore`, lines 170-232) or after `MI`
(`insertInstsAfter`, lines 248-311) and replaying the governance of the
re-emitted headers yields exactly: the original instructions' effective
conditions unchanged (in order), with `m` copies of `MI`'s effective
condition spliced in at the insertion point; moreover every re-emitted
header covers between 1 and 4 instructions.  (The original header is
deleted at lines 230/309; the model returns its replacement headers.) -/
theorem c1_governed_insertion_conservation
    (firstCond mask distance m : Nat) (hmask : mask % 16 ≠ 0)
    (h1 : 1 ≤ distance) (hd : distance ≤ (decodeITMask mask).length)
    (hm : 1 ≤ m) :
    replayITs (insertInstsBeforeITs firstCond mask distance m) =
        (replayIT firstCond mask).take (distance - 1) ++
          List.replicate m ((replayIT firstCond mask).getD (distance - 1) 0) ++
          (replayIT firstCond mask).drop (distance - 1) ∧
    replayITs (insertInstsAfterITs firstCond mask distance m) =
        (replayIT firstCond mask).take distance ++
          List.replicate m ((replayIT firstCond mask).getD (distance - 1) 0) ++
          (replayIT firstCond mask).drop distance ∧
    (∀ p ∈ insertInstsBeforeITs firstCond mask distance m,
        1 ≤ (decodeITMask p.2).length ∧ (decodeITMask p.2).length ≤ 4) ∧
    (∀ p ∈ insertInstsAfterITs firstCond mask distance m,
        1 ≤ (decodeITMask p.2).length ∧ (decodeITMask p.2).length ≤ 4) := by
  have hidx : distance - 1 < (decodeITMask mask).length := by omega
  refine ⟨?_, ?_, ?_, ?_⟩
  · unfold insertInstsBeforeITs
    rw [replay_chunks]
    simp only [List.map_append, List.map_take, List.map_drop, List.map_replicate]
    rw [effCond_getD firstCond _ _ hidx]
    rfl
  · unfold insertInstsAfterITs
    rw [replay_chunks]
    simp only [List.map_append, List.map_take, List.map_drop, List.map_replicate]
    rw [effCond_getD firstCond _ _ hidx]
    rfl
  · exact fun p hp => emitted_size_bounds firstCond _ p hp
  · exact fun p hp => emitted_size_bounds firstCond _ p hp

/-- Witness for `c1_governed_insertion_conservation` at a concrete block:
first condition EQ, mask `0b0101` (a 4-instruction block), insertion around
the 2nd instruction, 2 new instructions. -/
theorem c1_governed_insertion_conservation_witness :
    ((5 : Nat) % 16 ≠ 0 ∧ 1 ≤ 2 ∧ 2 ≤ (decodeITMask 5).length ∧ 1 ≤ 2) ∧
    (replayITs (insertInstsBeforeITs 0 5 2 2) =
        (replayIT 0 5).take 1 ++ List.replicate 2 ((replayIT 0 5).getD 1 0) ++
          (replayIT 0 5).drop 1) :=
  ⟨by refine ⟨by norm_num, by norm_num, ?_, by norm_num⟩; simp [decodeITMask, maskSize],
   (c1_governed_insertion_conservation 0 5 2 2 (by norm_num) (by norm_num)
      (by simp [decodeITMask, maskSize]) (by norm_num)).1⟩

/-- **C3** (block-size decode/encode round-trip).  Every nonzero 4-bit mask
survives `decodeITMask` followed by `encodeITMask`, and every same/complement
list of length 1-4 whose first element is `true` survives `encodeITMask`
followed by `decodeITMask`. -/
theorem c3_itmask_roundtrip :
    (∀ mask : Nat, mask < 16 → mask ≠ 0 →
        encodeITMask (decodeITMask mask) = mask) ∧
    (∀ l : List Bool, l ≠ [] → l.length ≤ 4 → l.headD false = true →
        decodeITMask (encodeITMask l) = l) :=
  ⟨encode_decode, decode_encode⟩

/-- Witness for `c3_itmask_roundtrip`: mask `0b0101` and list `[T, F, T]`. -/
theorem c3_itmask_roundtrip_witness :
    encodeITMask (decodeITMask 5) = 5 ∧
    decodeITMask (encodeITMask [true, false, true]) = [true, false, true] :=
  ⟨c3_itmask_roundtrip.1 5 (by norm_num) (by norm_num),
   c3_itmask_roundtrip.2 [true, false, true] (by simp) (by simp) (by simp)⟩

/-- **C4** (removal conservation).  `removeInst` (lines 325-363) applied to
the sole instruction of a 1-instruction block erases the header (`none`);
applied at `distance` inside a larger block it returns a repaired header
whose replayed governance equals the original effective conditions with the
removed instruction's entry deleted (the base condition and all flags are
flipped exactly when the new first entry is a complement flag). -/
theorem c4_removal_conservation (firstCond mask distance : Nat)
    (hmask : mask % 16 ≠ 0) (h1 : 1 ≤ distance)
    (hd : distance ≤ (decodeITMask mask).length) :
    ((decodeITMask mask).length = 1 →
        removeInstIT firstCond mask distance = none) ∧
    (2 ≤ (decodeITMask mask).length →
        ∃ c' m', removeInstIT firstCond mask distance = some (c', m') ∧
          replayIT c' m' =
            (replayIT firstCond mask).take (distance - 1) ++
              (replayIT firstCond mask).drop distance) := by
  set dq := decodeITMask mask with hdq
  set dq' := dq.take (distance - 1) ++ dq.drop distance with hdq'
  have hlen' : dq'.length = dq.length - 1 := by
    simp only [hdq', List.length_append, List.length_take, List.length_drop]
    omega
  constructor
  · intro hone
    have : dq' = [] := List.eq_nil_of_length_eq_zero (by omega)
    simp [removeInstIT, ← hdq, ← hdq', this]
  · intro htwo
    have hne : dq' ≠ [] := by
      intro hcon
      rw [hcon] at hlen'
      simp at hlen'
      omega
    have hlen4 : dq.length ≤ 4 := by
      rw [hdq, decodeITMask_length mask hmask]
      exact maskSize_le_four mask
    have hsome : removeInstIT firstCond mask distance = some (emitIT firstCond dq') := by
      simp only [removeInstIT, ← hdq, ← hdq']
      rw [if_neg hne]
      unfold emitIT
      split <;> rfl
    refine ⟨(emitIT firstCond dq').1, (emitIT firstCond dq').2, by simpa using hsome, ?_⟩
    rw [replay_emitIT firstCond dq' hne (by omega)]
    simp only [hdq', List.map_append, List.map_take, List.map_drop]
    rfl

/-- Witness for `c4_removal_conservation`: removing the 1st instruction of the
2-instruction block with mask `0b1100` (second instruction on the complement
condition), and removing the sole instruction of the block with mask
`0b1000`. -/
theorem c4_removal_conservation_witness :
    (∃ c' m', removeInstIT 0 12 1 = some (c', m') ∧
        replayIT c' m' = (replayIT 0 12).take 0 ++ (replayIT 0 12).drop 1) ∧
    removeInstIT 0 8 1 = none :=
  ⟨(c4_removal_conservation 0 12 1 (by norm_num) (by norm_num)
      (by simp [decodeITMask, maskSize])).2 (by simp [decodeITMask, maskSize]),
   (c4_removal_conservation 0 8 1 (by norm_num) (by norm_num)
      (by simp [decodeITMask, maskSize])).1 (by simp [decodeITMask, maskSize])⟩

/-! ## Locating the governing header (`findIT`, C9)

`ARMSilhouetteInstrumentor::findIT` (lines 77-94) walks backward from `MI`,
one `getPrevNode()` per step, counting *every* instruction (debug pseudos
included) until it meets a `t2IT` or exhausts the 4-instruction distance
bound.  The shadow-stack pass (`ARMSilhouetteShadowStack.cpp`, lines
525-586) instead scans *forward* from a `t2IT` over its governed range and
does `i++` whenever `condMI->isDebugValue()`, i.e. it does not count debug
pseudos toward the block size.
-/

/-- The instruction shapes findIT-style searches distinguish: an IT header
with its first condition and mask, a debug-only pseudo-instruction
(`isDebugValue`), a pop-family instruction (`tPOP`/`tPOP_RET`/`t2LDMIA_RET`)
with or without `PC` in its register list, or anything else. -/
inductive SOp : Type
  | it (cond mask : Nat)
  | dbg
  | pop (hasPC : Bool)
  | otherInstr
deriving DecidableEq, Repr

/-- The backward loop of `findIT` (lines 81-93).  `prevs` lists the
instructions before `MI`, closest first (each step of the list is one
`getPrevNode()`); `dist` is the count so far.  The loop stops at the first
`t2IT`, at a null predecessor, or when `dist` reaches 5; a found header is
returned (with the 1-based distance) only if its block size covers the
distance. -/
def findITAux : List SOp → Nat → Option (Nat × Nat × Nat)
  | [], _ => none
  | p :: rest, dist =>
    if 5 ≤ dist + 1 then none
    else
      match p with
      | SOp.it c m => if dist + 1 ≤ getITBlockSize m then some (c, m, dist + 1) else none
      | _ => findITAux rest (dist + 1)

/-- `ARMSilhouetteInstrumentor::findIT` (lines 77-94) as a function of the
backward instruction context of `MI`. -/
def findIT (prevs : List SOp) : Option (Nat × Nat × Nat) :=
  findITAux prevs 0

/-- The forward scan of the shadow-stack pass over an IT block's governed
range (`ARMSilhouetteShadowStack.cpp`, lines 546-569): walk the instructions
after the header looking for a pop-family instruction with `PC`, decrementing
the remaining count only for non-debug instructions (`i++` on
`isDebugValue`, line 567-568). -/
def ssScanHasPOP : Nat → List SOp → Bool
  | 0, _ => false
  | _ + 1, [] => false
  | n + 1, p :: rest =>
    if p = SOp.pop true then true
    else if p = SOp.dbg then ssScanHasPOP (n + 1) rest
    else ssScanHasPOP n rest

/-- Counter-model for **C9**: a 1-instruction IT block (mask `0b1000`).
Without a debug pseudo between the header and the governed instruction,
`findIT` locates the header at distance 1; inserting one debug pseudo makes
the distance 2 exceed the block size, so `findIT` finds nothing.  `findIT`
therefore counts debug-only pseudo-instructions toward the distance bound,
contradicting the claim. -/
theorem c9_findIT_counts_debug_counterexample :
    findIT [SOp.it 0 8] = some (0, 8, 1) ∧
    findIT [SOp.dbg, SOp.it 0 8] = none := by
  constructor <;> rfl

/-- **C9 amended**: only the shadow-stack pass's forward scan skips
debug-only pseudo-instructions without counting them toward the block-size
bound — its result is invariant under removing (hence under inserting) debug
pseudos; `findIT`, by contrast, counts every instruction, and on debug-free
streams it finds the governing header at the true distance. -/
theorem c9_debug_skip_amended :
    (∀ (n : Nat) (l : List SOp),
        ssScanHasPOP n l = ssScanHasPOP n (l.filter (fun p => p ≠ SOp.dbg))) ∧
    (∀ (c m d : Nat), m % 16 ≠ 0 → 1 ≤ d → d ≤ getITBlockSize m →
        findIT (List.replicate (d - 1) SOp.otherInstr ++ [SOp.it c m]) =
          some (c, m, d)) := by
  constructor
  · intro n l
    induction l generalizing n with
    | nil => cases n <;> rfl
    | cons p rest ih =>
      cases n with
      | zero => simp [ssScanHasPOP]
      | succ k =>
        match p with
        | SOp.dbg => simp [ssScanHasPOP, ih]
        | SOp.pop true => simp [ssScanHasPOP]
        | SOp.pop false => simp [ssScanHasPOP, ih]
        | SOp.it c m => simp [ssScanHasPOP, ih]
        | SOp.otherInstr => simp [ssScanHasPOP, ih]
  · intro c m d hmask h1 hd
    have h16 : m % 16 < 16 := Nat.mod_lt _ (by norm_num)
    have hsize : getITBlockSize m ≤ 4 := by
      unfold getITBlockSize
      interval_cases h : m % 16 <;> simp_all
    have step : ∀ (k j : Nat), k + 1 ≤ getITBlockSize m →
        j + k + 1 ≤ getITBlockSize m →
        findITAux (List.replicate k SOp.otherInstr ++ [SOp.it c m]) j =
          some (c, m, j + k + 1) := by
      intro k
      induction k with
      | zero =>
        intro j _ hj
        simp only [List.replicate, List.nil_append, findITAux]
        rw [if_neg (by omega), if_pos (by omega)]
      | succ k ih =>
        intro j _ hj
        simp only [List.replicate, List.cons_append, findITAux, List.append_eq]
        rw [if_neg (by omega), ih (j + 1) (by omega) (by omega)]
        have e : j + 1 + k + 1 = j + (k + 1) + 1 := by omega
        rw [e]
    have hf := step (d - 1) 0 (by omega) (by omega)
    have e : 0 + (d - 1) + 1 = d := by omega
    rw [e] at hf
    exact hf

/-- Witness for `c9_debug_skip_amended`: a debug pseudo inside the scanned
range of a 2-instruction block does not change the shadow-stack scan, and
`findIT` finds a 2-instruction block's header from its second instruction. -/
theorem c9_debug_skip_amended_witness :
    (ssScanHasPOP 2 [SOp.dbg, SOp.pop true] =
      ssScanHasPOP 2 ([SOp.dbg, SOp.pop true].filter (fun p => p ≠ SOp.dbg))) ∧
    findIT [SOp.otherInstr, SOp.it 1 4] = some (1, 4, 2) :=
  ⟨c9_debug_skip_amended.1 2 [SOp.dbg, SOp.pop true],
   c9_debug_skip_amended.2 1 4 2 (by norm_num) (by norm_num) (by decide)⟩

/-! ## The CFI bit-masking pass (`ARMSilhouetteCFI.cpp`, C2)

`BitMaskIndirectBranchCall` (lines 259-320) handles a bit-masked indirect
branch/call that is the 4th (last) instruction of a full IT block by calling
`SplitFullITBlock` (lines 160-176) and then `InsertBFCWithinITBlock`
(lines 221-247) with `Rank = 1` against the freshly created 1-instruction
header.  `LSB`/`InvertLSB` are the macros at lines 28-29.
-/

/-- The `LSB` macro (line 28): `num & 0x1`. -/
def lsbOf (n : Nat) : Nat := n % 2

/-- `SplitFullITBlock` (lines 160-176), effect on the old header's mask:
`Mask |= 0x2; Mask &= ~0x1`, re-encoding it to cover only 3 instructions.
(The function also builds a fresh IT `(CC, 0x8)` before the transfer; note
that its body reaches the end without a `return` statement even though it is
declared — and documented, lines 156-158 — to return a pointer to the new
IT, which the caller then dereferences.) -/
def splitFullITBlockMask (mask : Nat) : Nat :=
  ((mask % 16) ||| 2) &&& 14

/-- The mask of the fresh 1-instruction IT built by `SplitFullITBlock` at
lines 172-175: `addImm(CC).addImm(0x8)`. -/
def splitNewITMask : Nat := 8

/-- `InsertBFCWithinITBlock` (lines 221-247), effect on the governing
header's mask when a BFC with condition `cc` is inserted before the
instruction of rank `rank`:

    if (Rank != 3) Mask >>= 1; else Mask |= 0x1;
    Mask &= LSB(CC) << (3 - Rank);
    Mask |= LSB(CC) << (3 - Rank);

(the `&=` destroys every other bit of the mask). -/
def insertBFCWithinITBlockMask (mask cc rank : Nat) : Nat :=
  let m := mask % 16
  let m := if rank ≠ 3 then m / 2 else m ||| 1
  let b := lsbOf cc <<< (3 - rank)
  (m &&& b) ||| b

/-- The full-block branch of `BitMaskIndirectBranchCall` (lines 270-276):
split the full block, then insert the BFC with `Rank = 1` under the new
header.  Returns the old header's new mask and the new header `(cc, mask)`. -/
def bitMaskFullBlockEdit (mask cc : Nat) : Nat × (Nat × Nat) :=
  let oldMask' := splitFullITBlockMask mask
  let newMask := insertBFCWithinITBlockMask splitNewITMask cc 1
  (oldMask', (cc, newMask))

/-- **C2** is a code bug.  Failing input: a full IT block `IT EQ` with mask
`0b0001` (four THEN-predicated instructions, transfer at rank 4, condition
EQ).  The split itself is correct (the old header's mask becomes `0b0010`,
covering 3 instructions, and the fresh header is `(EQ, 0b1000)`), but
`InsertBFCWithinITBlock` then computes the fresh header's new mask as
`((0x8 >> 1) & (LSB(EQ) << 2)) | (LSB(EQ) << 2) = 0` — an all-zero IT mask,
which both `getITBlockSize` and `decodeITMask` reject (`assert(Mask != 0)`)
and which encodes no governed instruction at all.  The BFC and the transfer
therefore do not end up governed under EQ, contradicting the claim that
every original instruction keeps its condition and that the BFC executes
under the transfer's condition.  (The `Mask &= LSB(CC) << (3 - Rank)`
followed immediately by `Mask |=` of the same value, and the missing
`return` in `SplitFullITBlock`, mark this as a slip in the code rather than
in the specification.) -/
theorem c2_full_block_split_code_bug :
    bitMaskFullBlockEdit 1 0 = (2, (0, 0)) ∧
    (bitMaskFullBlockEdit 1 0).2.2 % 16 = 0 ∧
    (∀ cc : Nat, lsbOf cc = 0 → insertBFCWithinITBlockMask splitNewITMask cc 1 = 0) := by
  refine ⟨rfl, rfl, ?_⟩
  intro cc hcc
  simp [insertBFCWithinITBlockMask, splitNewITMask, hcc]

/-! ## The shadow-stack pass (`ARMSilhouetteShadowStack.cpp`, C6 and C7)

`buildStrSSInstr` (lines 138-176) and `buildLdrSSInstr` (lines 197-311)
build the Setup store and the Teardown load.  For an offset outside
`[0, 4096)`, `buildStrSSInstr` emits a run of `t2ADDri12`/`t2SUBri12`
adjustments of SP in 4095-sized steps around the store.  Each
`BuildMI(MBB, X, ...)` inserts the new instruction immediately *before*
`X`, and each loop iteration passes the instruction it just built as the
next insertion point (the cursor starts at `subInstr = MI`, line 154), so
the instructions of the first-built loop (the source's `subOp` loop) end up
*last* in program order and the `addOp` loop's instructions end up *first*;
the resulting program order is: `addOp` run, store at the residual offset,
`subOp` run.  `buildLdrSSInstr`, by contrast, declares its cursor
`MachineInstr* subInstr;` *uninitialized* (line 235) and reads it at lines
238 and 262 to choose every insertion point of its non-base paths (and its
`imm < 0` null arm inserts at `MBB.end()`, line 263), so the emitted order
of the Teardown load sequence is well defined only on the base path
`0 ≤ imm < 4096` (lines 207-229); only that path is modelled here.
Every instruction built by the two builders is tagged
`setMIFlag(MachineInstr::ShadowStack)`.

Registers follow the architectural numbering; SP = 13, LR = 14, PC = 15.
-/

/-- Instruction shapes emitted by the shadow-stack pass. -/
inductive SSOp : Type
  | strSP (src : Nat) (imm : Int)   -- t2STRi12 src, [SP, #imm]
  | ldrSP (dst : Nat) (imm : Int)   -- t2LDRi12 dst, [SP, #imm]
  | addSPi (imm : Int)              -- t2ADDri12 SP, SP, #imm
  | subSPi (imm : Int)              -- t2SUBri12 SP, SP, #imm
  | addspW (words : Int)            -- tADDspi SP, SP, #words (adds 4*words)
  | pushRegs (rs : List Nat)        -- tPUSH {rs} (lowest register at lowest address)
  | popRegs (rs : List Nat)         -- tPOP {rs} (no PC; the rebuilt pop)
deriving DecidableEq, Repr

/-- An emitted machine instruction together with its
`MachineInstr::ShadowStack` flag. -/
structure SSInstr : Type where
  op : SSOp
  ssFlag : Bool
deriving DecidableEq, Repr

/-- Machine state for executing shadow-stack sequences: the stack pointer,
the core register file and a flat word-addressed memory. -/
structure MState : Type where
  sp : Int
  regs : Nat → Int
  mem : Int → Int

/-- Store consecutive words starting at `base` (used by `tPUSH`). -/
def storeList (mem : Int → Int) (base : Int) : List Int → (Int → Int)
  | [] => mem
  | v :: vs => storeList (Function.update mem base v) (base + 4) vs

/-- Load consecutive words starting at `base` into the listed registers
(used by `tPOP`). -/
def popLoad (regs : Nat → Int) (mem : Int → Int) (base : Int) :
    List Nat → (Nat → Int)
  | [] => regs
  | r :: rs => popLoad (Function.update regs r (mem base)) mem (base + 4) rs

/-- Small-step semantics of the emitted instructions (ARMv7-M semantics of
the handful of opcodes the pass uses). -/
def stepSS (st : MState) (i : SSInstr) : MState :=
  match i.op with
  | SSOp.strSP src imm =>
      { st with mem := Function.update st.mem (st.sp + imm) (st.regs src) }
  | SSOp.ldrSP dst imm =>
      { st with regs := Function.update st.regs dst (st.mem (st.sp + imm)) }
  | SSOp.addSPi imm => { st with sp := st.sp + imm }
  | SSOp.subSPi imm => { st with sp := st.sp - imm }
  | SSOp.addspW w => { st with sp := st.sp + 4 * w }
  | SSOp.pushRegs rs =>
      { st with
        mem := storeList st.mem (st.sp - 4 * rs.length) (rs.map st.regs),
        sp := st.sp - 4 * rs.length }
  | SSOp.popRegs rs =>
      { st with
        regs := popLoad st.regs st.mem st.sp rs,
        sp := st.sp + 4 * rs.length }

def runSS (st : MState) (l : List SSInstr) : MState := l.foldl stepSS st

/-- The number of iterations of the `while (imm_left > 4095)` loops of
`buildStrSSInstr` / `buildLdrSSInstr`. -/
def chunks4095 (L : Nat) : Nat :=
  if L > 4095 then chunks4095 (L - 4095) + 1 else 0

/-- The residual `imm_left` after those loops. -/
def rem4095 (L : Nat) : Nat := L - 4095 * chunks4095 L

/-- `buildStrSSInstr` (lines 138-176), in program order, with the recursive
call at line 163 inlined (after the loops the residual offset is within
`[0, 4096)`, so the recursion hits the base case).  Every instruction is
flagged `ShadowStack` (lines 149, 156, 160, 167, 171). -/
def buildStrSS (spillReg : Nat) (imm : Int) : List SSInstr :=
  if 0 ≤ imm ∧ imm < 4096 then
    [⟨SSOp.strSP spillReg imm, true⟩]
  else if 0 ≤ imm then
    let n := chunks4095 imm.toNat
    List.replicate n ⟨SSOp.addSPi 4095, true⟩ ++
      [⟨SSOp.strSP spillReg (rem4095 imm.toNat : Int), true⟩] ++
      List.replicate n ⟨SSOp.subSPi 4095, true⟩
  else
    let n := chunks4095 (-imm).toNat
    ⟨SSOp.subSPi (rem4095 (-imm).toNat : Int), true⟩ ::
      (List.replicate n ⟨SSOp.subSPi 4095, true⟩ ++
        [⟨SSOp.strSP spillReg 0, true⟩] ++
        ⟨SSOp.addSPi (rem4095 (-imm).toNat : Int), true⟩ ::
          List.replicate n ⟨SSOp.addSPi 4095, true⟩)

/-- The Teardown sequence emitted for a pop-family instruction containing
`PC` (`runOnMachineFunction`, lines 462-524): `buildLdrSSInstr` builds the
load of `PC` from `[SP, #offset-4]` before the pop — on its base path
`0 ≤ imm < 4096` (lines 207-229) that is the single `t2LDRi12` (the
non-base paths read the uninitialized `subInstr`, lines 235/238/262, and
are therefore not modelled); `tADDspi SP, #1` is inserted immediately
before the load (line 494), the rebuilt pop without `PC` immediately before
that (line 496, via `rebuildPopInstr`), and the original pop is erased.
The rebuilt pop inherits the original pop's flags (line 363), hence is not
`ShadowStack`-flagged. -/
def teardownSS (popRs : List Nat) (imm : Int) : List SSInstr :=
  [⟨SSOp.popRegs popRs, false⟩, ⟨SSOp.addspW 1, true⟩,
   ⟨SSOp.ldrSP 15 imm, true⟩]

/-- A synthetic function with a push-storing-LR prologue and a matching
pop-loading-PC epilogue, after the shadow-stack pass: the Setup store of LR
at `[SP, #offset-4]` built before the push (lines 430-448: the comment at
lines 434-437 explains the `imm - 4`), the push itself, and the Teardown
sequence replacing the pop.  `rs` are the callee-saved registers the
prologue pushes below LR and the epilogue restores. -/
def ssPrologueEpilogue (rs : List Nat) (offset : Int) : List SSInstr :=
  buildStrSS 14 (offset - 4) ++
    (⟨SSOp.pushRegs (rs ++ [14]), false⟩ :: teardownSS rs (offset - 4))

/-- The assertion at line 556 guarding the configured offset
(`assert(SHADOW_STACK_OFFSET <= 4096 && SHADOW_STACK_OFFSET >= 0)`). -/
def ssOffsetAssert (offset : Int) : Prop := 0 ≤ offset ∧ offset ≤ 4096

/-- Net SP displacement of a single SP-arithmetic instruction. -/
def spDelta : SSInstr → Int
  | ⟨SSOp.addSPi i, _⟩ => i
  | ⟨SSOp.subSPi i, _⟩ => -i
  | _ => 0

/-- Instructions that only adjust SP. -/
def isSPArith : SSInstr → Prop
  | ⟨SSOp.addSPi _, _⟩ => True
  | ⟨SSOp.subSPi _, _⟩ => True
  | _ => False

theorem runSS_append (st : MState) (l1 l2 : List SSInstr) :
    runSS st (l1 ++ l2) = runSS (runSS st l1) l2 :=
  List.foldl_append ..

theorem runSS_spArith (l : List SSInstr) (st : MState)
    (h : ∀ i ∈ l, isSPArith i) :
    runSS st l = { st with sp := st.sp + (l.map spDelta).sum } := by
  induction l generalizing st with
  | nil => simp [runSS]
  | cons i t ih =>
    have hi := h i (by simp)
    have ht : ∀ j ∈ t, isSPArith j := fun j hj => h j (by simp [hj])
    have hstep : runSS st (i :: t) = runSS (stepSS st i) t := rfl
    match i with
    | ⟨SSOp.addSPi x, f⟩ =>
      rw [hstep, ih _ ht]
      simp [stepSS, spDelta, Int.add_assoc]
    | ⟨SSOp.subSPi x, f⟩ =>
      rw [hstep, ih _ ht]
      simp [stepSS, spDelta]
      ring
    | ⟨SSOp.strSP _ _, _⟩ => exact hi.elim
    | ⟨SSOp.ldrSP _ _, _⟩ => exact hi.elim
    | ⟨SSOp.addspW _, _⟩ => exact hi.elim
    | ⟨SSOp.pushRegs _, _⟩ => exact hi.elim
    | ⟨SSOp.popRegs _, _⟩ => exact hi.elim

theorem sum_replicate_int (n : Nat) (x : Int) :
    (List.replicate n x).sum = n * x := by
  induction n with
  | zero => simp
  | succ k ih =>
    rw [List.replicate_succ, List.sum_cons, ih]
    push_cast
    ring

theorem chunks4095_le (L : Nat) : 4095 * chunks4095 L ≤ L := by
  induction L using Nat.strong_induction_on with
  | _ L ih =>
    rw [chunks4095]
    split
    · have h := ih (L - 4095) (by omega)
      omega
    · omega

theorem rem4095_add (L : Nat) : 4095 * chunks4095 L + rem4095 L = L := by
  have := chunks4095_le L
  unfold rem4095
  omega

theorem rem4095_lt (L : Nat) : rem4095 L < 4096 := by
  induction L using Nat.strong_induction_on with
  | _ L ih =>
    by_cases h : L > 4095
    · have he : chunks4095 L = chunks4095 (L - 4095) + 1 := by
        rw [chunks4095]; simp [h]
      have hle := chunks4095_le (L - 4095)
      have ihr := ih (L - 4095) (by omega)
      unfold rem4095 at *
      omega
    · have he : chunks4095 L = 0 := by rw [chunks4095]; simp [h]
      unfold rem4095
      omega

/-- Executing `SP-arith run ++ [store] ++ SP-arith run`: the store lands at
the SP-displaced address and the final SP is the total displacement. -/
theorem runSS_sandwich (pre post : List SSInstr) (spill : Nat) (immf : Int)
    (st : MState) (hpre : ∀ i ∈ pre, isSPArith i)
    (hpost : ∀ i ∈ post, isSPArith i) :
    runSS st (pre ++ [⟨SSOp.strSP spill immf, true⟩] ++ post) =
      { st with
        sp := st.sp + (pre.map spDelta).sum + (post.map spDelta).sum,
        mem := Function.update st.mem (st.sp + (pre.map spDelta).sum + immf)
                 (st.regs spill) } := by
  rw [runSS_append, runSS_append, runSS_spArith pre st hpre]
  have hstr : runSS { st with sp := st.sp + (pre.map spDelta).sum }
      [⟨SSOp.strSP spill immf, true⟩] =
      { st with
        sp := st.sp + (pre.map spDelta).sum,
        mem := Function.update st.mem (st.sp + (pre.map spDelta).sum + immf)
                 (st.regs spill) } := rfl
  rw [hstr, runSS_spArith post _ hpost]

theorem replicate_spArith (n : Nat) (x : SSInstr) (hx : isSPArith x) :
    ∀ i ∈ List.replicate n x, isSPArith i := by
  intro i hi
  rw [List.eq_of_mem_replicate hi]
  exact hx

/-- Effect of the Setup store builder: SP and the registers are preserved
and exactly the word at `SP + imm` is written with the spilled register,
on the direct path and on both multi-instruction paths. -/
theorem runSS_buildStrSS (spill : Nat) (imm : Int) (st : MState) :
    runSS st (buildStrSS spill imm) =
      { st with mem := Function.update st.mem (st.sp + imm) (st.regs spill) } := by
  unfold buildStrSS
  split
  · next hbase =>
    have := runSS_sandwich [] [] spill imm st (by simp) (by simp)
    simpa using this
  · next hbase =>
    split
    · next hpos =>
      set n := chunks4095 imm.toNat with hn
      have h := runSS_sandwich (List.replicate n ⟨SSOp.addSPi 4095, true⟩)
        (List.replicate n ⟨SSOp.subSPi 4095, true⟩) spill (rem4095 imm.toNat : Int) st
        (replicate_spArith n ⟨SSOp.addSPi 4095, true⟩ (by trivial))
        (replicate_spArith n ⟨SSOp.subSPi 4095, true⟩ (by trivial))
      rw [h]
      have hsum1 : ((List.replicate n (⟨SSOp.addSPi 4095, true⟩ : SSInstr)).map
          spDelta).sum = (n : Int) * 4095 := by
        rw [List.map_replicate, sum_replicate_int]; rfl
      have hsum2 : ((List.replicate n (⟨SSOp.subSPi 4095, true⟩ : SSInstr)).map
          spDelta).sum = (n : Int) * (-4095) := by
        rw [List.map_replicate, sum_replicate_int]; rfl
      rw [hsum1, hsum2]
      have haddr : st.sp + (n : Int) * 4095 + (rem4095 imm.toNat : Int) =
          st.sp + imm := by
        have h1 := rem4095_add imm.toNat
        have h2 : ((imm.toNat : Int)) = imm := Int.toNat_of_nonneg hpos
        rw [← hn] at h1
        omega
      rw [haddr]
      congr 1
      omega
    · next hneg =>
      push_neg at hneg
      set L := (-imm).toNat with hL
      set n := chunks4095 L with hn
      have hshape : (⟨SSOp.subSPi (rem4095 L : Int), true⟩ ::
            (List.replicate n ⟨SSOp.subSPi 4095, true⟩ ++
              [⟨SSOp.strSP spill 0, true⟩] ++
              ⟨SSOp.addSPi (rem4095 L : Int), true⟩ ::
                List.replicate n ⟨SSOp.addSPi 4095, true⟩) : List SSInstr) =
          (⟨SSOp.subSPi (rem4095 L : Int), true⟩ ::
              List.replicate n ⟨SSOp.subSPi 4095, true⟩) ++
            [⟨SSOp.strSP spill 0, true⟩] ++
            (⟨SSOp.addSPi (rem4095 L : Int), true⟩ ::
              List.replicate n ⟨SSOp.addSPi 4095, true⟩) := by
        simp
      rw [hshape]
      have h := runSS_sandwich
        (⟨SSOp.subSPi (rem4095 L : Int), true⟩ ::
          List.replicate n ⟨SSOp.subSPi 4095, true⟩)
        (⟨SSOp.addSPi (rem4095 L : Int), true⟩ ::
          List.replicate n ⟨SSOp.addSPi 4095, true⟩) spill 0 st
        (by
          intro i hi
          rcases List.mem_cons.mp hi with h1 | h1
          · rw [h1]; trivial
          · rw [List.eq_of_mem_replicate h1]; trivial)
        (by
          intro i hi
          rcases List.mem_cons.mp hi with h1 | h1
          · rw [h1]; trivial
          · rw [List.eq_of_mem_replicate h1]; trivial)
      rw [h]
      have hsum1 : (((⟨SSOp.subSPi (rem4095 L : Int), true⟩ ::
          List.replicate n ⟨SSOp.subSPi 4095, true⟩ : List SSInstr)).map
            spDelta).sum = -(rem4095 L : Int) + (n : Int) * (-4095) := by
        rw [List.map_cons, List.sum_cons, List.map_replicate, sum_replicate_int]
        rfl
      have hsum2 : (((⟨SSOp.addSPi (rem4095 L : Int), true⟩ ::
          List.replicate n ⟨SSOp.addSPi 4095, true⟩ : List SSInstr)).map
            spDelta).sum = (rem4095 L : Int) + (n : Int) * 4095 := by
        rw [List.map_cons, List.sum_cons, List.map_replicate, sum_replicate_int]
        rfl
      rw [hsum1, hsum2]
      have hLval : ((L : Int)) = -imm := by
        rw [hL]
        exact Int.toNat_of_nonneg (by omega)
      have h1 := rem4095_add L
      rw [← hn] at h1
      have haddr : st.sp + (-(rem4095 L : Int) + (n : Int) * (-4095)) + 0 =
          st.sp + imm := by omega
      rw [haddr]
      congr 1
      omega

/-- Executing the (base-path) Teardown sequence loads PC with the memory
word at `SP + 4*(#popped regs) + 4 + offset`, i.e. at the requested offset
from the fully-restored stack pointer. -/
theorem runSS_teardown (popRs : List Nat) (imm : Int) (st : MState) :
    (runSS st (teardownSS popRs imm)).regs 15 =
      st.mem (st.sp + 4 * popRs.length + 4 + imm) := by
  have hrun : runSS st (teardownSS popRs imm) =
      stepSS (stepSS (stepSS st ⟨SSOp.popRegs popRs, false⟩)
        ⟨SSOp.addspW 1, true⟩) ⟨SSOp.ldrSP 15 imm, true⟩ := rfl
  rw [hrun]
  have hfin : stepSS (stepSS (stepSS st ⟨SSOp.popRegs popRs, false⟩)
      ⟨SSOp.addspW 1, true⟩) ⟨SSOp.ldrSP 15 imm, true⟩ =
      { sp := st.sp + 4 * popRs.length + 4 * 1,
        regs := Function.update (popLoad st.regs st.mem st.sp popRs) 15
          (st.mem (st.sp + 4 * popRs.length + 4 * 1 + imm)),
        mem := st.mem } := rfl
  rw [hfin]
  simp only [Function.update_same]
  congr 1

theorem storeList_lookup_out (mem : Int → Int) (base : Int) (vs : List Int)
    (a : Int) (h : ∀ j : Nat, j < vs.length → base + 4 * j ≠ a) :
    storeList mem base vs a = mem a := by
  induction vs generalizing mem base with
  | nil => rfl
  | cons v t ih =>
    simp only [storeList]
    rw [ih _ _ ?_]
    · refine Function.update_noteq ?_ _ _
      have h0 := h 0 (by simp)
      simpa using fun hc => h0 (by omega)
    · intro j hj
      have := h (j + 1) (by simpa using hj)
      push_cast at this ⊢
      omega

/-- **C7** (shadow-stack symmetry — holds only on the defined,
single-instruction Teardown path; the multi-instruction path is undefined
in the code).  The claim asserts Setup/Teardown symmetry on both builder
paths, but `buildLdrSSInstr` (lines 197-311) declares its insertion cursor
`subInstr` uninitialized (line 235) and reads it (lines 238, 262) to place
every instruction of the multi-instruction and negative-immediate paths —
in contrast to `buildStrSSInstr`, which initializes its cursor to `MI`
(line 154) — so the emitted order, and hence the loaded address, is
undefined there; even under the evident intended initialization (the
commented-out lines 239-243), the small-negative arm inserts the SP
adjustment at `MBB.end()` (line 263) rather than at the load.  What the
code does establish, proved here: when `offset - 4` fits the single
`t2LDRi12` immediate (`4 ≤ offset ≤ 4099`), the Teardown — the rebuilt pop,
the `tADDspi #1` adjustment (line 494) and the `LDR PC, [SP, #offset-4]`
(lines 207-229, 475-510) — loads into PC exactly the LR value that the
Setup store (`buildStrSSInstr`, lines 430-448) wrote to `SP_at_push +
offset - 4`; the Setup store itself writes LR to that slot for every
offset, on both of its (well-defined) builder paths; and a negative
configured offset is rejected by the assertion at line 556. -/
theorem c7_shadow_stack_single_path (offset : Int) (rs : List Nat) (st : MState)
    (hlo : 4 ≤ offset) (hhi : offset ≤ 4099) :
    (runSS st (ssPrologueEpilogue rs offset)).regs 15 = st.regs 14 ∧
    (∀ (off : Int) (st' : MState),
      (runSS st' (buildStrSS 14 (off - 4))).mem (st'.sp + (off - 4)) =
        st'.regs 14) ∧
    (∀ off : Int, off < 0 → ¬ ssOffsetAssert off) := by
  refine ⟨?_, ?_, ?_⟩
  · unfold ssPrologueEpilogue
    rw [runSS_append, runSS_buildStrSS]
    set slot := st.sp + (offset - 4) with hslot
    set mem1 := Function.update st.mem slot (st.regs 14) with hmem1
    set st1 : MState := { st with mem := mem1 } with hst1
    have hpushstep : runSS st1
        (⟨SSOp.pushRegs (rs ++ [14]), false⟩ :: teardownSS rs (offset - 4)) =
        runSS (stepSS st1 ⟨SSOp.pushRegs (rs ++ [14]), false⟩)
          (teardownSS rs (offset - 4)) := rfl
    rw [hpushstep, runSS_teardown rs (offset - 4) _]
    have hmem2 : (stepSS st1 ⟨SSOp.pushRegs (rs ++ [14]), false⟩).mem =
        storeList mem1 (st.sp - 4 * (((rs ++ [14]).length : Nat) : Int))
          ((rs ++ [14]).map st.regs) := rfl
    have hsp2 : (stepSS st1 ⟨SSOp.pushRegs (rs ++ [14]), false⟩).sp =
        st.sp - 4 * (((rs ++ [14]).length : Nat) : Int) := rfl
    rw [hmem2, hsp2]
    have hlen : (((rs ++ [14]).length : Nat) : Int) = (rs.length : Int) + 1 := by
      simp
    rw [hlen]
    have haddr : st.sp - 4 * ((rs.length : Int) + 1) + 4 * (rs.length : Int) + 4 +
        (offset - 4) = slot := by
      rw [hslot]; ring
    rw [haddr]
    have hvals : (rs ++ [14]).map st.regs = rs.map st.regs ++ [st.regs 14] := by
      simp
    rw [hvals]
    have hout : ∀ j : Nat, j < (rs.map st.regs ++ [st.regs 14]).length →
        st.sp - 4 * ((rs.length : Int) + 1) + 4 * j ≠ slot := by
      intro j hj
      have hjk : j < rs.length + 1 := by simpa using hj
      rw [hslot]
      have hj' : (j : Int) < (rs.length : Int) + 1 := by exact_mod_cast hjk
      omega
    rw [storeList_lookup_out mem1 _ _ slot hout, hmem1]
    exact Function.update_same slot (st.regs 14) st.mem
  · intro off st'
    rw [runSS_buildStrSS]
    exact Function.update_same _ _ _
  · intro off hneg hassert
    exact absurd hassert.1 (by omega)

/-- Witness for `c7_shadow_stack_single_path`: the configured offset 2048
of the source (`SHADOW_STACK_OFFSET`, line 32), a prologue pushing
`{r4, lr}`, and an arbitrary concrete start state. -/
theorem c7_shadow_stack_single_path_witness :
    ((4 : Int) ≤ 2048 ∧ (2048 : Int) ≤ 4099) ∧
    (runSS ⟨0, fun r => (r : Int), fun _ => 0⟩ (ssPrologueEpilogue [4] 2048)).regs 15 =
      (⟨0, fun r => (r : Int), fun _ => 0⟩ : MState).regs 14 :=
  ⟨⟨by norm_num, by norm_num⟩,
   (c7_shadow_stack_single_path 2048 [4] ⟨0, fun r => (r : Int), fun _ => 0⟩
      (by norm_num) (by norm_num)).1⟩

/-! ## Store collection in the rewriting passes (C6)

`ARMSilhouetteSTR2STRT::runOnMachineFunction` (lines 354-436) and
`ARMSilhouetteSFI::runOnMachineFunction` (lines 214-296) collect the stores
to rewrite with the same loop shape: an instruction is skipped outright when
`!MI.mayStore() || MI.getFlag(MachineInstr::ShadowStack)` (lines 358 / 218),
and is otherwise dispatched on its opcode: the "lightweight" single stores
are collected by the store-demotion pass unless full SFI is on and by the
SFI pass only when full SFI is on; the "heavyweight" stores are collected by
the store-demotion pass only without SFI and by the SFI pass whenever SFI is
on.
-/

/-- The store opcodes the two collection switches enumerate. -/
inductive StOpcode : Type
  | tSTRi | tSTRspi | t2STRi12 | t2STRi8
  | tSTRHi | t2STRHi12 | t2STRHi8
  | tSTRBi | t2STRBi12 | t2STRBi8
  | t2STR_PRE | t2STR_POST | t2STRH_PRE | t2STRH_POST | t2STRB_PRE | t2STRB_POST
  | tSTRr | t2STRs | tSTRHr | t2STRHs | tSTRBr | t2STRBs
  | t2STRDi8 | t2STRD_PRE | t2STRD_POST
  | VSTRD | VSTRS
  | tSTMIA_UPD | t2STMIA | t2STMIA_UPD | t2STMDB | t2STMDB_UPD
  | tPUSH
  | VSTMDIA | VSTMDIA_UPD | VSTMDDB_UPD | VSTMSIA | VSTMSIA_UPD | VSTMSDB_UPD
  | INLINEASM
  | otherOpcode
deriving DecidableEq, Repr

/-- The `SilhouetteSFIOption` configuration enum (`ARMSilhouetteSFI.h`). -/
inductive SFIOption : Type
  | noSFI | selSFI | fullSFI
deriving DecidableEq, Repr

open StOpcode in
/-- The "lightweight" store group of both collection switches
(`ARMSilhouetteSTR2STRT.cpp` lines 364-397, `ARMSilhouetteSFI.cpp` lines
224-257). -/
def isLightweightStore : StOpcode → Bool
  | tSTRi | tSTRspi | t2STRi12 | t2STRi8
  | tSTRHi | t2STRHi12 | t2STRHi8
  | tSTRBi | t2STRBi12 | t2STRBi8
  | t2STR_PRE | t2STR_POST | t2STRH_PRE | t2STRH_POST | t2STRB_PRE | t2STRB_POST
  | tSTRr | t2STRs | tSTRHr | t2STRHs | tSTRBr | t2STRBs
  | t2STRDi8 | t2STRD_PRE | t2STRD_POST => true
  | _ => false

open StOpcode in
/-- The "heavyweight" store group of both collection switches
(`ARMSilhouetteSTR2STRT.cpp` lines 404-421, `ARMSilhouetteSFI.cpp` lines
264-281). -/
def isHeavyweightStore : StOpcode → Bool
  | VSTRD | VSTRS
  | tSTMIA_UPD | t2STMIA | t2STMIA_UPD | t2STMDB | t2STMDB_UPD
  | tPUSH
  | VSTMDIA | VSTMDIA_UPD | VSTMDDB_UPD | VSTMSIA | VSTMSIA_UPD
  | VSTMSDB_UPD => true
  | _ => false

/-- Whether the store-demotion pass collects an instruction for rewriting
(`ARMSilhouetteSTR2STRT.cpp` lines 356-436): never when the instruction
does not store or carries the `ShadowStack` flag; lightweight stores unless
`FullSFI`; heavyweight stores only under `NoSFI`. -/
def str2strtCollects (sfi : SFIOption) (mayStore ssFlag : Bool)
    (op : StOpcode) : Bool :=
  if !mayStore || ssFlag then false
  else if isLightweightStore op then sfi != SFIOption.fullSFI
  else if isHeavyweightStore op then sfi == SFIOption.noSFI
  else false

/-- Whether the SFI bit-masking pass collects an instruction for masking
(`ARMSilhouetteSFI.cpp` lines 216-296): never when the instruction does not
store or carries the `ShadowStack` flag; lightweight stores only under
`FullSFI`; heavyweight stores whenever SFI is on. -/
def sfiCollects (sfi : SFIOption) (mayStore ssFlag : Bool)
    (op : StOpcode) : Bool :=
  if !mayStore || ssFlag then false
  else if isLightweightStore op then sfi == SFIOption.fullSFI
  else if isHeavyweightStore op then sfi != SFIOption.noSFI
  else false

/-- **C6** (shadow-stack flag exemption).  Any instruction carrying the
`ShadowStack` flag is collected neither by the store privilege-demotion pass
nor by the SFI bit-masking pass, for every SFI configuration and opcode; and
every instruction synthesized by the shadow-stack pass's Setup store builder
`buildStrSSInstr` carries the `ShadowStack` flag, for every spill register
and offset. -/
theorem c6_shadow_stack_flag_exemption :
    (∀ (sfi : SFIOption) (mayStore : Bool) (op : StOpcode),
        str2strtCollects sfi mayStore true op = false ∧
        sfiCollects sfi mayStore true op = false) ∧
    (∀ (spillReg : Nat) (imm : Int) (i : SSInstr),
        i ∈ buildStrSS spillReg imm → i.ssFlag = true) := by
  constructor
  · intro sfi mayStore op
    constructor <;> simp [str2strtCollects, sfiCollects]
  · intro spillReg imm i hi
    unfold buildStrSS at hi
    split at hi
    · simp at hi
      rw [hi]
    · split at hi
      · simp only [List.append_assoc, List.mem_append, List.mem_singleton,
          List.mem_replicate] at hi
        rcases hi with ⟨_, rfl⟩ | hi | ⟨_, rfl⟩
        · rfl
        · rw [hi]
        · rfl
      · simp only [List.mem_cons, List.append_assoc, List.mem_append,
          List.mem_singleton, List.mem_replicate, List.not_mem_nil,
          or_false] at hi
        rcases hi with rfl | ⟨_, rfl⟩ | rfl | rfl | ⟨_, rfl⟩ <;> rfl

/-- Witness for `c6_shadow_stack_flag_exemption`: the single `t2STRi12` that
`buildStrSSInstr` emits for the configured offset 2048 carries the flag. -/
theorem c6_shadow_stack_flag_exemption_witness :
    (⟨SSOp.strSP 14 2044, true⟩ : SSInstr) ∈ buildStrSS 14 2044 ∧
    (⟨SSOp.strSP 14 2044, true⟩ : SSInstr).ssFlag = true :=
  ⟨by decide,
   c6_shadow_stack_flag_exemption.2 14 2044 ⟨SSOp.strSP 14 2044, true⟩ (by decide)⟩

/-! ## SP-based stores in the rewriting passes (C5)

`handleSPWithUncommonImm` (`ARMSilhouetteSTR2STRT.cpp` lines 177-231),
`handleSPWithOffsetReg` (lines 252-316) and `handleSPUncommonImmediate`
(`ARMSilhouetteSFI.cpp` lines 143-180) rewrite a store whose base is SP and
whose offset cannot be used directly.  All three compute `SP + offset` into
a scratch register and use the scratch as the store's base; the scratch is
taken from the free-register list when possible (`findFreeRegisters` only
ever offers R0-R7, R8-R12 and LR, never SP) and otherwise picked by
incrementing from a fixed start register past the source registers, with a
push/pop spill around the sequence.

Not every SP-based store is routed through the helpers, however.  The
negative-immediate encodings `t2STRi8`/`t2STRHi8`/`t2STRBi8` (lines
513-537, 582-606, 649-673) call the helper only when the immediate is
misaligned (`BaseReg == ARM::SP && Imm % 4 != 0`); an aligned negative
immediate (other than the `-256` zero-offset encoding) instead goes through
`addImmediateToRegister(MI, BaseReg, Imm, ...)` /
`subtractImmediateFromRegister(MI, BaseReg, Imm, ...)`
(`ARMSilhouetteInstrumentor.h` lines 71-114) with `BaseReg = SP`, which for
`-512 < Imm < 512` emit `tSUBspi`/`tADDspi` with SP itself as the
destination — the add-around-store idiom applied to SP.  (The same
`addImmediateToRegister`-on-SP route is taken by the negative-immediate
`t2STRDi8` case, lines 986-1016, and the negative-immediate `VSTRD`/`VSTRS`
cases, lines 1106-1185.)  `C++ Imm % 4 != 0` agrees with the Lean `emod`
test `¬ imm % 4 = 0` (both are exactly non-divisibility by 4), and C++
`Imm >>= 2` on the 4-aligned immediates admitted by the alignment assert at
`ARMSilhouetteInstrumentor.h` line 75 agrees with exact division `imm / 4`.
-/

/-- The SFI masks (`ARMSilhouetteSFI.h`). -/
def sfiMaskHi : Nat := 0xc0000000
def sfiMaskMid : Nat := 0x00800000

/-- `ARM::NoRegister`, modelled as a value distinct from every core
register. -/
def noRegister : Nat := 16

/-- Instruction shapes emitted by the SP-handling helpers. -/
inductive RInstr : Type
  | tSUBspi (words : Int)            -- sub sp, #4*words
  | tADDspi (words : Int)            -- add sp, #4*words
  | strt (src base : Nat) (imm : Int)  -- t2STRT/t2STRHT/t2STRBT src, [base, #imm]
  | tPOPr (reg : Nat)                -- pop {reg} (spill restore)
  | tPUSHr (reg : Nat)               -- push {reg} (spill save)
  | addri12 (dst src : Nat) (imm : Int)  -- t2ADDri12 dst, src, #imm
  | subri12 (dst src : Nat) (imm : Int)  -- t2SUBri12 dst, src, #imm
  | addrr (dst src1 src2 : Nat)      -- t2ADDrr dst, src1, src2
  | addrs (dst src1 src2 : Nat) (shift : Nat)  -- t2ADDrs dst, src1, src2, LSL #shift
  | bicri (dst src : Nat) (maskImm : Nat)      -- t2BICri dst, src, #mask
deriving DecidableEq, Repr

/-- The destination of an offset-arithmetic instruction (the
add-around-store / subtract-after idiom): `t2ADDri12`, `t2SUBri12`,
`t2ADDrr`, `t2ADDrs`.  The spill `tSUBspi`/`tPUSH`/`tPOP` allocate stack for
the spilled register and `t2BICri` masks in place; neither is offset
arithmetic. -/
def arithDest : RInstr → Option Nat
  | RInstr.addri12 d _ _ => some d
  | RInstr.subri12 d _ _ => some d
  | RInstr.addrr d _ _ => some d
  | RInstr.addrs d _ _ _ => some d
  | _ => none

/-- The scratch search over the free-register list
(`for (unsigned Reg : FreeRegs) if (Reg != SrcReg && Reg != SrcReg2) ...`,
lines 191-197 / 266-272). -/
def findScratch (freeRegs : List Nat) (s1 s2 : Nat) : Option Nat :=
  freeRegs.find? (fun r => r ≠ s1 && r ≠ s2)

/-- The fallback scratch choice
(`ScratchReg = ARM::R4; while (ScratchReg == SrcReg || ScratchReg == SrcReg2)
ScratchReg++;`, lines 202-203, and the analogous `R0` loops at lines 277-278
and `ARMSilhouetteSFI.cpp` lines 156-157): the first register from `start`
upward that collides with neither source.  With two forbidden values the
loop stops within `start + 2`; the `start + 3` arm is unreachable. -/
def pickScratch (start s1 s2 : Nat) : Nat :=
  if start ≠ s1 ∧ start ≠ s2 then start
  else if start + 1 ≠ s1 ∧ start + 1 ≠ s2 then start + 1
  else if start + 2 ≠ s1 ∧ start + 2 ≠ s2 then start + 2
  else start + 3

/-- `handleSPWithUncommonImm` (lines 177-231): the scratch register chosen
and the emitted sequence, in order: optional spill (`backupRegisters`, lines
64-109: `sub sp, #4` then `strt scratch, [sp, #0]`, with `Imm += 4` to
compensate), `t2ADDri12`/`t2SUBri12 scratch, SP, #|imm|`, the store(s)
through the scratch, and the optional `tPOP` restore. -/
def handleSPWithUncommonImm (srcReg : Nat) (imm : Int) (freeRegs : List Nat)
    (srcReg2 : Nat) : Nat × List RInstr :=
  match findScratch freeRegs srcReg srcReg2 with
  | some sc =>
      (sc,
        [if imm < 0 then RInstr.subri12 sc 13 (-imm) else RInstr.addri12 sc 13 imm,
         RInstr.strt srcReg sc 0] ++
        (if srcReg2 ≠ noRegister then [RInstr.strt srcReg2 sc 4] else []))
  | none =>
      let sc := pickScratch 4 srcReg srcReg2
      let imm' := imm + 4
      (sc,
        [RInstr.tSUBspi 1, RInstr.strt sc 13 0,
         if imm' < 0 then RInstr.subri12 sc 13 (-imm') else RInstr.addri12 sc 13 imm',
         RInstr.strt srcReg sc 0] ++
        (if srcReg2 ≠ noRegister then [RInstr.strt srcReg2 sc 4] else []) ++
        [RInstr.tPOPr sc])

/-- `handleSPWithOffsetReg` (lines 252-316): add SP and the (optionally
shifted) offset register into the scratch, compensate the spill by
`t2ADDri12 scratch, scratch, #4` when a register was spilled, store through
the scratch, restore. -/
def handleSPWithOffsetReg (srcReg offsetReg : Nat) (shiftImm : Nat)
    (freeRegs : List Nat) : Nat × List RInstr :=
  match findScratch freeRegs srcReg offsetReg with
  | some sc =>
      (sc,
        [if shiftImm > 0 then RInstr.addrs sc 13 offsetReg shiftImm
         else RInstr.addrr sc 13 offsetReg,
         RInstr.strt srcReg sc 0])
  | none =>
      let sc := pickScratch 0 srcReg offsetReg
      (sc,
        [RInstr.tSUBspi 1, RInstr.strt sc 13 0,
         if shiftImm > 0 then RInstr.addrs sc 13 offsetReg shiftImm
         else RInstr.addrr sc 13 offsetReg,
         RInstr.addri12 sc sc 4,
         RInstr.strt srcReg sc 0,
         RInstr.tPOPr sc])

/-- `handleSPUncommonImmediate` (`ARMSilhouetteSFI.cpp` lines 143-180): the
scratch register returned (the caller substitutes it as the store's base and
zeroes the immediate), the instructions inserted before the store
(bit-masking of SP, `tPUSH` of the scratch, `Imm += 4`,
`t2ADDri12`/`t2SUBri12 scratch, SP, #|imm+4|`, bit-masking of the scratch)
and the instruction inserted after it (`tPOP` of the scratch). -/
def handleSPUncommonImmediate (srcReg : Nat) (imm : Int) (srcReg2 : Nat) :
    Nat × List RInstr × List RInstr :=
  let sc := pickScratch 0 srcReg srcReg2
  let imm' := imm + 4
  (sc,
   [RInstr.bicri 13 13 sfiMaskHi, RInstr.bicri 13 13 sfiMaskMid,
    RInstr.tPUSHr sc,
    if imm' < 0 then RInstr.subri12 sc 13 (-imm') else RInstr.addri12 sc 13 imm',
    RInstr.bicri sc sc sfiMaskHi, RInstr.bicri sc sc sfiMaskMid],
   [RInstr.tPOPr sc])

/-- Whether an emitted instruction writes SP: `tSUBspi`/`tADDspi` have SP
as destination, `tPUSH`/`tPOP` move SP, and the register-destination shapes
write SP exactly when their destination is SP (R13).  The unprivileged
stores never write a register. -/
def modifiesSP : RInstr → Bool
  | RInstr.tSUBspi _ => true
  | RInstr.tADDspi _ => true
  | RInstr.tPOPr _ => true
  | RInstr.tPUSHr _ => true
  | RInstr.addri12 d _ _ => d = 13
  | RInstr.subri12 d _ _ => d = 13
  | RInstr.addrr d _ _ => d = 13
  | RInstr.addrs d _ _ _ => d = 13
  | RInstr.bicri d _ _ => d = 13
  | RInstr.strt _ _ _ => false

/-- `addImmediateToRegister` (`ARMSilhouetteInstrumentor.h` lines 71-94):
`addOpc = Imm < 0 ? t2SUBri12 : t2ADDri12`, except that for
`Reg == ARM::SP && Imm > -512 && Imm < 512` it becomes
`Imm < 0 ? tSUBspi : tADDspi` with `Imm >>= 2`; the magnitude `|Imm|` is
the operand.  The destination register is `Reg` itself in every arm.  C++
`Imm >>= 2` is exact division by 4 on the 4-aligned immediates the
alignment assert (line 75) admits for SP, hence `imm / 4` here. -/
def addImmediateToRegister (reg : Nat) (imm : Int) : RInstr :=
  if reg = 13 ∧ -512 < imm ∧ imm < 512 then
    if imm < 0 then RInstr.tSUBspi (-(imm / 4)) else RInstr.tADDspi (imm / 4)
  else if imm < 0 then RInstr.subri12 reg reg (-imm)
  else RInstr.addri12 reg reg imm

/-- `subtractImmediateFromRegister` (lines 110-114): delegates to
`addImmediateToRegister` with the negated immediate. -/
def subtractImmediateFromRegister (reg : Nat) (imm : Int) : RInstr :=
  addImmediateToRegister reg (-imm)

/-- The `t2STRi8` rewriting case (lines 513-537; `t2STRHi8` lines 582-606
and `t2STRBi8` lines 649-673 are identical in shape): a misaligned SP base
goes to `handleSPWithUncommonImm`; otherwise, unless the immediate is the
zero-offset encoding `-256`, the `t2STRT` at offset 0 is surrounded by
`addImmediateToRegister`/`subtractImmediateFromRegister` on the base
register itself — including when the base is SP. -/
def rewriteSTRi8 (srcReg baseReg : Nat) (imm : Int) (freeRegs : List Nat) :
    List RInstr :=
  if baseReg = 13 ∧ ¬ imm % 4 = 0 then
    (handleSPWithUncommonImm srcReg imm freeRegs noRegister).2
  else
    (if ¬ imm = -256 then [addImmediateToRegister baseReg imm] else []) ++
    [RInstr.strt srcReg baseReg 0] ++
    (if ¬ imm = -256 then [subtractImmediateFromRegister baseReg imm] else [])

theorem pickScratch_le (start s1 s2 : Nat) :
    pickScratch start s1 s2 ≤ start + 3 := by
  unfold pickScratch
  split
  · omega
  · split
    · omega
    · split <;> omega

theorem pickScratch_ne (start s1 s2 : Nat) :
    pickScratch start s1 s2 ≠ s1 ∧ pickScratch start s1 s2 ≠ s2 := by
  unfold pickScratch
  split
  · next h => exact h
  · split
    · next h => exact h
    · split
      · next h => exact h
      · next h1 h2 h3 =>
        push_neg at h1 h2 h3
        constructor <;> omega

theorem findScratch_spec (freeRegs : List Nat) (s1 s2 sc : Nat)
    (h : findScratch freeRegs s1 s2 = some sc) :
    sc ∈ freeRegs ∧ sc ≠ s1 ∧ sc ≠ s2 := by
  have hmem := List.mem_of_find?_eq_some h
  have hp := List.find?_some h
  simp only [Bool.and_eq_true, decide_eq_true_eq, ne_eq, Bool.not_eq_true',
    decide_eq_false_iff_not] at hp
  exact ⟨hmem, hp.1, hp.2⟩

theorem uncommonImm_spec (srcReg srcReg2 : Nat) (imm : Int)
    (freeRegs : List Nat) (hfree : (13 : Nat) ∉ freeRegs) :
    ¬ (handleSPWithUncommonImm srcReg imm freeRegs srcReg2).1 = 13 ∧
    (∀ i ∈ (handleSPWithUncommonImm srcReg imm freeRegs srcReg2).2,
        ∀ d, arithDest i = some d → ¬ d = 13) ∧
    RInstr.strt srcReg (handleSPWithUncommonImm srcReg imm freeRegs srcReg2).1 0 ∈
      (handleSPWithUncommonImm srcReg imm freeRegs srcReg2).2 ∧
    (∀ b k, RInstr.strt srcReg b k ∈
        (handleSPWithUncommonImm srcReg imm freeRegs srcReg2).2 →
        b = (handleSPWithUncommonImm srcReg imm freeRegs srcReg2).1) := by
  cases hfs : findScratch freeRegs srcReg srcReg2 with
  | some sc =>
    obtain ⟨hmem, hne1, _⟩ := findScratch_spec freeRegs srcReg srcReg2 sc hfs
    have hsc13 : ¬ sc = 13 := fun hc => hfree (hc ▸ hmem)
    simp only [handleSPWithUncommonImm, hfs]
    refine ⟨hsc13, ?_, by simp, ?_⟩
    · intro i hi d hd
      simp only [List.cons_append, List.mem_cons, List.mem_append,
        List.not_mem_nil, or_false] at hi
      rcases hi with rfl | rfl | hi
      · split at hd <;> · simp [arithDest] at hd; omega
      · simp [arithDest] at hd
      · split at hi <;> simp at hi
        rw [hi] at hd
        simp [arithDest] at hd
    · intro b k hbk
      simp only [List.cons_append, List.mem_cons, List.mem_append,
        List.not_mem_nil, or_false] at hbk
      rcases hbk with hbk | hbk | hbk
      · split at hbk <;> simp at hbk
      · simp only [RInstr.strt.injEq] at hbk
        exact hbk.2.1
      · split at hbk <;> simp at hbk
        exact hbk.2.1
  | none =>
    simp only [handleSPWithUncommonImm, hfs]
    obtain ⟨hne1, _⟩ := pickScratch_ne 4 srcReg srcReg2
    have hle := pickScratch_le 4 srcReg srcReg2
    refine ⟨by omega, ?_, by simp, ?_⟩
    · intro i hi d hd
      simp only [List.cons_append, List.mem_cons, List.mem_append,
        List.not_mem_nil, or_false, List.mem_singleton] at hi
      rcases hi with rfl | rfl | rfl | rfl | hi
      · simp [arithDest] at hd
      · simp [arithDest] at hd
      · split at hd <;> · simp [arithDest] at hd; omega
      · simp [arithDest] at hd
      · rcases hi with hi | rfl
        · split at hi <;> simp at hi
          rw [hi] at hd
          simp [arithDest] at hd
        · simp [arithDest] at hd
    · intro b k hbk
      simp only [List.cons_append, List.mem_cons, List.mem_append,
        List.not_mem_nil, or_false, List.mem_singleton] at hbk
      rcases hbk with hbk | hbk | hbk | hbk | hbk
      · simp at hbk
      · simp only [RInstr.strt.injEq] at hbk
        exact absurd hbk.1.symm hne1
      · split at hbk <;> simp at hbk
      · simp only [RInstr.strt.injEq] at hbk
        exact hbk.2.1
      · rcases hbk with hbk | hbk
        · split at hbk <;> simp at hbk
          exact hbk.2.1
        · simp at hbk

theorem offsetReg_spec (srcReg offsetReg : Nat) (shiftImm : Nat)
    (freeRegs : List Nat) (hfree : (13 : Nat) ∉ freeRegs) :
    ¬ (handleSPWithOffsetReg srcReg offsetReg shiftImm freeRegs).1 = 13 ∧
    (∀ i ∈ (handleSPWithOffsetReg srcReg offsetReg shiftImm freeRegs).2,
        ∀ d, arithDest i = some d → ¬ d = 13) ∧
    RInstr.strt srcReg (handleSPWithOffsetReg srcReg offsetReg shiftImm freeRegs).1 0 ∈
      (handleSPWithOffsetReg srcReg offsetReg shiftImm freeRegs).2 ∧
    (∀ b k, RInstr.strt srcReg b k ∈
        (handleSPWithOffsetReg srcReg offsetReg shiftImm freeRegs).2 →
        b = (handleSPWithOffsetReg srcReg offsetReg shiftImm freeRegs).1) := by
  cases hfs : findScratch freeRegs srcReg offsetReg with
  | some sc =>
    obtain ⟨hmem, hne1, _⟩ := findScratch_spec freeRegs srcReg offsetReg sc hfs
    have hsc13 : ¬ sc = 13 := fun hc => hfree (hc ▸ hmem)
    simp only [handleSPWithOffsetReg, hfs]
    refine ⟨hsc13, ?_, by simp, ?_⟩
    · intro i hi d hd
      simp only [List.mem_cons, List.not_mem_nil, or_false] at hi
      rcases hi with rfl | rfl
      · split at hd <;> · simp [arithDest] at hd; omega
      · simp [arithDest] at hd
    · intro b k hbk
      simp only [List.mem_cons, List.not_mem_nil, or_false] at hbk
      rcases hbk with hbk | hbk
      · split at hbk <;> simp at hbk
      · simp only [RInstr.strt.injEq] at hbk
        exact hbk.2.1
  | none =>
    simp only [handleSPWithOffsetReg, hfs]
    obtain ⟨hne1, _⟩ := pickScratch_ne 0 srcReg offsetReg
    have hle := pickScratch_le 0 srcReg offsetReg
    refine ⟨by omega, ?_, by simp, ?_⟩
    · intro i hi d hd
      simp only [List.mem_cons, List.not_mem_nil, or_false] at hi
      rcases hi with rfl | rfl | rfl | rfl | rfl | rfl
      · simp [arithDest] at hd
      · simp [arithDest] at hd
      · split at hd <;> · simp [arithDest] at hd; omega
      · simp [arithDest] at hd
        omega
      · simp [arithDest] at hd
      · simp [arithDest] at hd
    · intro b k hbk
      simp only [List.mem_cons, List.not_mem_nil, or_false] at hbk
      rcases hbk with hbk | hbk | hbk | hbk | hbk | hbk
      · simp at hbk
      · simp only [RInstr.strt.injEq] at hbk
        exact absurd hbk.1.symm hne1
      · split at hbk <;> simp at hbk
      · simp at hbk
      · simp only [RInstr.strt.injEq] at hbk
        exact hbk.2.1
      · simp at hbk

theorem sfiImm_spec (srcReg srcReg2 : Nat) (imm : Int) :
    ¬ (handleSPUncommonImmediate srcReg imm srcReg2).1 = 13 ∧
    (∀ i ∈ (handleSPUncommonImmediate srcReg imm srcReg2).2.1,
        ∀ d, arithDest i = some d →
          d = (handleSPUncommonImmediate srcReg imm srcReg2).1) ∧
    (∀ i ∈ (handleSPUncommonImmediate srcReg imm srcReg2).2.2,
        ∀ d, arithDest i = some d → ¬ d = 13) := by
  obtain ⟨hne1, _⟩ := pickScratch_ne 0 srcReg srcReg2
  have hle := pickScratch_le 0 srcReg srcReg2
  simp only [handleSPUncommonImmediate]
  refine ⟨by omega, ?_, ?_⟩
  · intro i hi d hd
    simp only [List.mem_cons, List.not_mem_nil, or_false] at hi
    rcases hi with rfl | rfl | rfl | rfl | rfl | rfl
    · simp [arithDest] at hd
    · simp [arithDest] at hd
    · simp [arithDest] at hd
    · split at hd <;> · simp [arithDest] at hd; omega
    · simp [arithDest] at hd
    · simp [arithDest] at hd
  · intro i hi d hd
    simp only [List.mem_cons, List.not_mem_nil, or_false] at hi
    rw [hi] at hd
    simp [arithDest] at hd

theorem rewriteSTRi8_neg_aligned (src : Nat) (imm : Int) (fr : List Nat)
    (h1 : -256 < imm) (h2 : imm < 0) (h3 : imm % 4 = 0) :
    rewriteSTRi8 src 13 imm fr =
      [RInstr.tSUBspi (-(imm / 4)), RInstr.strt src 13 0,
       RInstr.tADDspi (-imm / 4)] := by
  unfold rewriteSTRi8
  rw [if_neg (fun hc => hc.2 h3)]
  have hne : ¬ imm = -256 := by omega
  rw [if_pos hne, if_pos hne]
  unfold subtractImmediateFromRegister addImmediateToRegister
  rw [if_pos ⟨rfl, by omega, by omega⟩, if_pos h2,
      if_pos ⟨rfl, by omega, by omega⟩, if_neg (by omega : ¬ -imm < 0)]
  rfl

/-- A concrete refutation of the universal SP claim: the aligned
negative-immediate word store `str r0, [sp, #-8]` (`t2STRi8`, source 0,
base SP, immediate −8) is rewritten — with free registers available — into
`tSUBspi #2; t2STRT r0, [sp, #0]; tADDspi #2`, both arithmetic
instructions having SP as their destination. -/
theorem c5_sp_negative_idiom_counterexample :
    rewriteSTRi8 0 13 (-8) [2, 3] =
      [RInstr.tSUBspi 2, RInstr.strt 0 13 0, RInstr.tADDspi 2] ∧
    modifiesSP (RInstr.tSUBspi 2) = true ∧
    modifiesSP (RInstr.tADDspi 2) = true :=
  ⟨by decide, rfl, rfl⟩

/-- **C5** (SP-based stores, amended).  The scratch-substitution discipline
holds for the cases routed through the three SP helpers —
`handleSPWithUncommonImm` and `handleSPWithOffsetReg` of the store
privilege-demotion pass and `handleSPUncommonImmediate` of the SFI pass:
the chosen scratch register is never SP (the free-register list never
offers SP, and the fallback loops pick from R4/R0 upward past the source
registers), every offset-arithmetic instruction emitted
(`t2ADDri12`/`t2SUBri12`/`t2ADDrr`/`t2ADDrs`) writes the scratch register
and never SP, and the rewritten store's base is the scratch.  But the claim
is not universal: the aligned-negative-immediate
`t2STRi8`/`t2STRHi8`/`t2STRBi8` cases (and likewise the negative
`t2STRDi8` and `VSTRD`/`VSTRS` cases) bypass the helpers and emit
`tSUBspi`/`tADDspi` around the demoted store with SP itself as destination
(lowering SP below the live data rather than raising it, so an interrupt
between them cannot clobber it). -/
theorem c5_sp_scratch_amended (srcReg srcReg2 offsetReg : Nat)
    (imm : Int) (shiftImm : Nat) (freeRegs : List Nat)
    (hfree : (13 : Nat) ∉ freeRegs) :
    (¬ (handleSPWithUncommonImm srcReg imm freeRegs srcReg2).1 = 13 ∧
     (∀ i ∈ (handleSPWithUncommonImm srcReg imm freeRegs srcReg2).2,
         ∀ d, arithDest i = some d → ¬ d = 13) ∧
     RInstr.strt srcReg (handleSPWithUncommonImm srcReg imm freeRegs srcReg2).1 0 ∈
       (handleSPWithUncommonImm srcReg imm freeRegs srcReg2).2 ∧
     (∀ b k, RInstr.strt srcReg b k ∈
         (handleSPWithUncommonImm srcReg imm freeRegs srcReg2).2 →
         b = (handleSPWithUncommonImm srcReg imm freeRegs srcReg2).1)) ∧
    (¬ (handleSPWithOffsetReg srcReg offsetReg shiftImm freeRegs).1 = 13 ∧
     (∀ i ∈ (handleSPWithOffsetReg srcReg offsetReg shiftImm freeRegs).2,
         ∀ d, arithDest i = some d → ¬ d = 13) ∧
     RInstr.strt srcReg (handleSPWithOffsetReg srcReg offsetReg shiftImm freeRegs).1 0 ∈
       (handleSPWithOffsetReg srcReg offsetReg shiftImm freeRegs).2 ∧
     (∀ b k, RInstr.strt srcReg b k ∈
         (handleSPWithOffsetReg srcReg offsetReg shiftImm freeRegs).2 →
         b = (handleSPWithOffsetReg srcReg offsetReg shiftImm freeRegs).1)) ∧
    (¬ (handleSPUncommonImmediate srcReg imm srcReg2).1 = 13 ∧
     (∀ i ∈ (handleSPUncommonImmediate srcReg imm srcReg2).2.1,
         ∀ d, arithDest i = some d →
           d = (handleSPUncommonImmediate srcReg imm srcReg2).1) ∧
     (∀ i ∈ (handleSPUncommonImmediate srcReg imm srcReg2).2.2,
         ∀ d, arithDest i = some d → ¬ d = 13)) ∧
    (∀ (src : Nat) (imm2 : Int) (fr : List Nat),
        -256 < imm2 → imm2 < 0 → imm2 % 4 = 0 →
        rewriteSTRi8 src 13 imm2 fr =
          [RInstr.tSUBspi (-(imm2 / 4)), RInstr.strt src 13 0,
           RInstr.tADDspi (-imm2 / 4)] ∧
        modifiesSP (RInstr.tSUBspi (-(imm2 / 4))) = true ∧
        modifiesSP (RInstr.tADDspi (-imm2 / 4)) = true) :=
  ⟨uncommonImm_spec srcReg srcReg2 imm freeRegs hfree,
   offsetReg_spec srcReg offsetReg shiftImm freeRegs hfree,
   sfiImm_spec srcReg srcReg2 imm,
   fun src imm2 fr h1 h2 h3 =>
     ⟨rewriteSTRi8_neg_aligned src imm2 fr h1 h2 h3, rfl, rfl⟩⟩

/-- Witness for `c5_sp_scratch_amended`: a word store `str r0, [sp, #300]`
with free registers `{r2, r3}`, a register-offset store `str r0, [sp, r1]`,
and the aligned negative store `str r0, [sp, #-8]`. -/
theorem c5_sp_scratch_amended_witness :
    ((13 : Nat) ∉ [2, 3]) ∧
    ¬ (handleSPWithUncommonImm 0 300 [2, 3] noRegister).1 = 13 ∧
    ¬ (handleSPWithOffsetReg 0 1 0 [2, 3]).1 = 13 ∧
    ¬ (handleSPUncommonImmediate 0 300 noRegister).1 = 13 ∧
    rewriteSTRi8 0 13 (-8) [2, 3] =
      [RInstr.tSUBspi 2, RInstr.strt 0 13 0, RInstr.tADDspi 2] :=
  ⟨by decide,
   (c5_sp_scratch_amended 0 noRegister 1 300 0 [2, 3] (by decide)).1.1,
   (c5_sp_scratch_amended 0 noRegister 1 300 0 [2, 3] (by decide)).2.1.1,
   (c5_sp_scratch_amended 0 noRegister 1 300 0 [2, 3] (by decide)).2.2.1.1,
   ((c5_sp_scratch_amended 0 noRegister 1 300 0 [2, 3] (by decide)).2.2.2
       0 (-8) [2, 3] (by norm_num) (by norm_num) (by decide)).1.trans
     (by decide)⟩

/-! ## The label-based CFI pass (`ARMSilhouetteLabelCFI.cpp`, C10)

`insertCFICheck` (lines 158-229) builds the check sequence with successive
`BuildMI(MBB, &MI, ...)` calls, each inserting immediately before the
transfer `MI`, so the program order equals the build order.  The pass
(lines 374-398) collects the guarded transfers and calls `insertCFICheck`
on each; it never calls `findIT`/`FindPrecedingIT`, never splits a block
and never touches an existing IT header.  Conditions are modelled as in the
rest of the file (AL = 14, NE = 1); `t2LDRHi12` and `t2CMPri` are built
without predicate operands (`none`).
-/

/-- The guarded indirect-transfer opcodes of the label-CFI pass
(lines 306-316). -/
inductive LOpcode : Type
  | tBRIND | tBX | tBXNS | tBLXr | tBLXNSr | tBX_CALL | tTAILJMPr
deriving DecidableEq, Repr

/-- Instruction shapes for the label-CFI pass. -/
inductive LInstr : Type
  | transfer (op : LOpcode) (reg : Nat) (cond : Nat)
  | itHeader (cond mask : Nat)              -- t2IT
  | pushR (reg : Nat) (cond : Nat)          -- tPUSH {reg}
  | popR (reg : Nat) (cond : Nat)           -- tPOP {reg}
  | bfc (reg : Nat) (maskImm : Int) (cond : Nat)  -- t2BFC reg, #mask
  | ldrh (dst src : Nat) (imm : Int)        -- t2LDRHi12 (no predicate operands)
  | cmpi (reg : Nat) (imm : Nat)            -- t2CMPri (no predicate operands)
  | orri (reg : Nat) (imm : Nat) (cond : Nat)  -- t2ORRri
  | subspi (words : Nat) (cond : Nat)       -- tSUBspi
  | strtI (src base : Nat) (imm : Int)      -- t2STRT
  | otherL (id : Nat)
deriving DecidableEq, Repr

/-- The condition operand an instruction carries (`none` for instructions
built without predicate operands). -/
def condOfL : LInstr → Option Nat
  | LInstr.transfer _ _ c => some c
  | LInstr.itHeader c _ => some c
  | LInstr.pushR _ c => some c
  | LInstr.popR _ c => some c
  | LInstr.bfc _ _ c => some c
  | LInstr.orri _ _ c => some c
  | LInstr.subspi _ c => some c
  | _ => none

/-- `BackupRegister` (lines 58-84): a `tPUSH` of the register, or
`sub sp, #4; strt reg, [sp, #0]` when stores are demoted and not
inverted. -/
def backupRegister (invert str2strt : Bool) (reg : Nat) : List LInstr :=
  if invert || !str2strt then [LInstr.pushR reg 14]
  else [LInstr.subspi 1 14, LInstr.strtI reg 13 0]

/-- `ARMSilhouetteLabelCFI::insertCFICheck` (lines 158-229), as the list of
instructions inserted immediately before the transfer, in program order:
optional spill of R4, optional `bfc reg, #0, #1` clearing the LSB (skipped
for `tBRIND`), `ldrh scratch, [reg, #0]`, `cmp scratch, #label`, a fresh
one-instruction `it ne` block, `bfcne reg, #0, #32` (immediate 0 clears all
32 bits), optional `orr reg, reg, #1`, optional restore of R4. -/
def insertCFICheck (invert str2strt : Bool) (op : LOpcode) (reg : Nat)
    (label : Nat) (freeRegs : List Nat) : List LInstr :=
  let scratch := match freeRegs with | [] => 4 | r :: _ => r
  (if freeRegs = [] then backupRegister invert str2strt 4 else []) ++
    (if op ≠ LOpcode.tBRIND then [LInstr.bfc reg (-2) 14] else []) ++
    [LInstr.ldrh scratch reg 0,
     LInstr.cmpi scratch label,
     LInstr.itHeader 1 8,
     LInstr.bfc reg 0 1] ++
    (if op ≠ LOpcode.tBRIND then [LInstr.orri reg 1 14] else []) ++
    (if freeRegs = [] then [LInstr.popR 4 14] else [])

/-- `CFI_LABEL_CALL = CFI_LABEL_JMP = 0x4600` (`ARMSilhouetteLabelCFI.h`
lines 33-35). -/
def cfiLabelConst : Nat := 0x4600

def isGuardedTransfer : LInstr → Bool
  | LInstr.transfer _ _ _ => true
  | _ => false

/-- The insertion phase of `ARMSilhouetteLabelCFI::runOnMachineFunction`
(lines 374-398): every collected guarded transfer gets its check sequence
spliced directly before it; every other instruction is left untouched. -/
def labelCFITransform (invert str2strt : Bool) (freeRegs : List Nat) :
    List LInstr → List LInstr
  | [] => []
  | LInstr.transfer op reg cond :: rest =>
      insertCFICheck invert str2strt op reg cfiLabelConst freeRegs ++
        (LInstr.transfer op reg cond ::
          labelCFITransform invert str2strt freeRegs rest)
  | i :: rest => i :: labelCFITransform invert str2strt freeRegs rest

theorem labelCFITransform_skips (invert str2strt : Bool) (freeRegs : List Nat)
    (l : List LInstr) (h : ∀ i ∈ l, isGuardedTransfer i = false) :
    labelCFITransform invert str2strt freeRegs l = l := by
  induction l with
  | nil => rfl
  | cons i rest ih =>
    have hi := h i (by simp)
    have hr := ih (fun j hj => h j (by simp [hj]))
    match i with
    | LInstr.transfer _ _ _ => simp [isGuardedTransfer] at hi
    | LInstr.itHeader c m => simp [labelCFITransform, hr]
    | LInstr.pushR r c => simp [labelCFITransform, hr]
    | LInstr.popR r c => simp [labelCFITransform, hr]
    | LInstr.bfc r m c => simp [labelCFITransform, hr]
    | LInstr.ldrh a b k => simp [labelCFITransform, hr]
    | LInstr.cmpi r k => simp [labelCFITransform, hr]
    | LInstr.orri r k c => simp [labelCFITransform, hr]
    | LInstr.subspi w c => simp [labelCFITransform, hr]
    | LInstr.strtI a b k => simp [labelCFITransform, hr]
    | LInstr.otherL n => simp [labelCFITransform, hr]

/-- **C10** (label-CFI check insertion is IT-oblivious).  For every guarded
indirect transfer — of any opcode, any target register and any condition,
including predicated ones — the pass splices the check sequence directly
before the transfer, leaving every preceding instruction (in particular any
IT header that may govern the transfer) byte-for-byte unchanged and never
re-encoding it; the sequence is the fixed one of `insertCFICheck` (optional
LSB-clearing BFC, halfword load at offset 0, compare against the label, a
fresh one-instruction IT NE block, a conditional all-clearing BFC, optional
LSB-setting ORR), whose only IT header is the fresh `it ne` with mask `0x8`
and whose every instruction carries condition AL, condition NE, or no
predicate operand at all. -/
theorem c10_label_cfi_check_insertion (invert str2strt : Bool)
    (freeRegs : List Nat) (pre post : List LInstr) (op : LOpcode)
    (reg cond : Nat) (hpre : ∀ i ∈ pre, isGuardedTransfer i = false) :
    labelCFITransform invert str2strt freeRegs
        (pre ++ LInstr.transfer op reg cond :: post) =
      pre ++ (insertCFICheck invert str2strt op reg cfiLabelConst freeRegs ++
        (LInstr.transfer op reg cond ::
          labelCFITransform invert str2strt freeRegs post)) ∧
    LInstr.itHeader 1 8 ∈ insertCFICheck invert str2strt op reg cfiLabelConst freeRegs ∧
    (∀ c m, LInstr.itHeader c m ∈
        insertCFICheck invert str2strt op reg cfiLabelConst freeRegs →
        c = 1 ∧ m = 8) ∧
    (∀ i ∈ insertCFICheck invert str2strt op reg cfiLabelConst freeRegs,
        condOfL i = none ∨ condOfL i = some 14 ∨ condOfL i = some 1) := by
  refine ⟨?_, ?_, ?_, ?_⟩
  · induction pre with
    | nil =>
      simp only [List.nil_append]
      rfl
    | cons i rest ih =>
      have hi := hpre i (by simp)
      have hr := ih (fun j hj => hpre j (by simp [hj]))
      match i, hi with
      | LInstr.itHeader c m, _ => simp [labelCFITransform, hr]
      | LInstr.pushR r c, _ => simp [labelCFITransform, hr]
      | LInstr.popR r c, _ => simp [labelCFITransform, hr]
      | LInstr.bfc r m c, _ => simp [labelCFITransform, hr]
      | LInstr.ldrh a b k, _ => simp [labelCFITransform, hr]
      | LInstr.cmpi r k, _ => simp [labelCFITransform, hr]
      | LInstr.orri r k c, _ => simp [labelCFITransform, hr]
      | LInstr.subspi w c, _ => simp [labelCFITransform, hr]
      | LInstr.strtI a b k, _ => simp [labelCFITransform, hr]
      | LInstr.otherL n, _ => simp [labelCFITransform, hr]
  · unfold insertCFICheck
    simp
  · intro c m hcm
    unfold insertCFICheck at hcm
    unfold backupRegister at hcm
    split at hcm <;> split at hcm <;> split at hcm <;> simp_all
  · intro i hi
    unfold insertCFICheck backupRegister at hi
    split_ifs at hi
    all_goals fin_cases hi <;> simp [condOfL]

/-- Witness for `c10_label_cfi_check_insertion`: a predicated `tBLXr`
governed by a preceding `it eq` header, with `r3` free. -/
theorem c10_label_cfi_check_insertion_witness :
    (∀ i ∈ [LInstr.itHeader 0 8], isGuardedTransfer i = false) ∧
    labelCFITransform false false [3]
        ([LInstr.itHeader 0 8] ++ LInstr.transfer LOpcode.tBLXr 2 0 :: []) =
      [LInstr.itHeader 0 8] ++
        (insertCFICheck false false LOpcode.tBLXr 2 cfiLabelConst [3] ++
          (LInstr.transfer LOpcode.tBLXr 2 0 :: labelCFITransform false false [3] [])) :=
  ⟨by decide,
   (c10_label_cfi_check_insertion false false [3] [LInstr.itHeader 0 8] []
      LOpcode.tBLXr 2 0 (by decide)).1⟩

/-! ## Per-function skip guards of the five passes (C8)

The function-level guards at the top of each `runOnMachineFunction`:

* store privilege-demotion (`ARMSilhouetteSTR2STRT.cpp` lines 338-348,
  under `#if 1`): returns unchanged when the name is in `funcBlacklist` or
  the section is `"privileged_functions"`;
* label CFI (`ARMSilhouetteLabelCFI.cpp` lines 284-294, under `#if 1`):
  same two checks;
* SFI (`ARMSilhouetteSFI.cpp` lines 203-208): only the `funcBlacklist`
  check — no privileged-section check;
* shadow stack (`ARMSilhouetteShadowStack.cpp` lines 390-396): only the
  `funcBlacklist` check (the whitelist check is under `#if 0`);
* CFI bit-masking (`ARMSilhouetteCFI.cpp` lines 341-346): the
  `funcBlacklist` check is compiled out under `#if 0`, and no
  privileged-section check exists, so the pass processes every function.

The bodies of the passes past the guard are abstracted as an arbitrary
`instrument` function where this file does not model them elsewhere; the
guard itself is the code under test here.
-/

/-- `ARMSilhouetteSTR2STRT::runOnMachineFunction` guard (lines 338-348). -/
def str2strtRunMF {α : Type} (instrument : List α → List α)
    (inBlacklist privileged : Bool) (body : List α) : List α :=
  if inBlacklist || privileged then body else instrument body

/-- `ARMSilhouetteSFI::runOnMachineFunction` guard (lines 203-208). -/
def sfiRunMF {α : Type} (instrument : List α → List α)
    (inBlacklist privileged : Bool) (body : List α) : List α :=
  if inBlacklist then body else instrument body

/-- `ARMSilhouetteShadowStack::runOnMachineFunction` guard (lines
390-396). -/
def shadowStackRunMF {α : Type} (instrument : List α → List α)
    (inBlacklist privileged : Bool) (body : List α) : List α :=
  if inBlacklist then body else instrument body

/-- `ARMSilhouetteLabelCFI::runOnMachineFunction` guard (lines 284-294),
with the pass's real insertion phase as the body. -/
def labelCFIRunMF (invert str2strt : Bool) (freeRegs : List Nat)
    (inBlacklist privileged : Bool) (body : List LInstr) : List LInstr :=
  if inBlacklist || privileged then body
  else labelCFITransform invert str2strt freeRegs body

/-! The CFI bit-masking pass itself (`ARMSilhouetteCFI.cpp`), modelled far
enough to run it on a function: the collection switch (lines 354-398) plus
`BitMaskIndirectBranchCall` (lines 259-320), with `FindPrecedingIT` (lines
65-140) as a function of the already-processed prefix (most recent
instruction first). -/

/-- Instruction shapes for the CFI bit-masking pass. -/
inductive CFIInstr : Type
  | tBXi (reg : Nat) (cond : Nat)   -- tBRIND/tBX/tBXNS-family indirect transfer
  | t2BFCi (reg : Nat) (maskImm : Int) (cond : Nat)
  | itHdr (cond mask : Nat)         -- t2IT
  | plainI (id : Nat)
deriving DecidableEq, Repr

/-- `FindPrecedingIT` (lines 65-140) on the reversed prefix: look for a
`t2IT` at most 4 instructions back whose mask still covers the queried
instruction (`(Mask & 0x7) == 0`, `(Mask & 0x3) == 0`, `LSB(Mask) == 0`
reject headers whose block ended earlier); return the 1-based rank and
whether the block is full (`LSB(Mask) == 1`). -/
def findPrecedingITRank (done : List CFIInstr) : Option (Nat × Bool) :=
  match done with
  | CFIInstr.itHdr _ m :: _ => some (1, m % 2 == 1)
  | _ :: CFIInstr.itHdr _ m :: _ =>
      if m % 8 = 0 then none else some (2, m % 2 == 1)
  | _ :: _ :: CFIInstr.itHdr _ m :: _ =>
      if m % 4 = 0 then none else some (3, m % 2 == 1)
  | _ :: _ :: _ :: CFIInstr.itHdr _ m :: _ =>
      if m % 2 = 0 then none else some (4, true)
  | _ => none

/-- Replace the mask of the IT header at index `idx` of the processed
prefix (the in-place `MaskMO.setImm` mutations of `SplitFullITBlock` and
`InsertBFCWithinITBlock`). -/
def modifyITMask (done : List CFIInstr) (idx : Nat) (f : Nat → Nat) :
    List CFIInstr :=
  done.set idx
    (match done.getD idx (CFIInstr.plainI 0) with
     | CFIInstr.itHdr c m => CFIInstr.itHdr c (f m)
     | other => other)

/-- One step of the CFI bit-masking pass over a function body, carrying the
processed prefix in reverse: `BitMaskIndirectBranchCall` (lines 259-320)
for the `tBRIND`/`tBX`/`tBXNS` shape.  Outside an IT block, `InsertBFC`
(lines 191-203) inserts `bfc reg, #1, #1` (`.addImm(~0x2)`) under AL;
inside a full block it splits via `SplitFullITBlock` and inserts under the
fresh header; inside a partial block it re-encodes the governing header via
`InsertBFCWithinITBlock` and inserts the BFC under the transfer's
condition. -/
def cfiStep (done : List CFIInstr) (i : CFIInstr) : List CFIInstr :=
  match i with
  | CFIInstr.tBXi reg cc =>
      match findPrecedingITRank done with
      | none =>
          CFIInstr.tBXi reg cc :: CFIInstr.t2BFCi reg (-3) 14 :: done
      | some (rank, isFull) =>
          if isFull then
            CFIInstr.tBXi reg cc ::
              CFIInstr.t2BFCi reg (-3) cc ::
                CFIInstr.itHdr cc (insertBFCWithinITBlockMask splitNewITMask cc 1) ::
                  modifyITMask done 3 splitFullITBlockMask
          else
            CFIInstr.tBXi reg cc ::
              CFIInstr.t2BFCi reg (-3) cc ::
                modifyITMask done (rank - 1)
                  (fun m => insertBFCWithinITBlockMask m cc rank)
  | other => other :: done

/-- `ARMSilhouetteCFI::runOnMachineFunction` (lines 339-436): no deny-list
or privileged-section guard survives compilation (`#if 0`, lines 341-346),
so the pass masks the indirect transfers of every function. -/
def cfiRunMF (inBlacklist privileged : Bool) (body : List CFIInstr) :
    List CFIInstr :=
  (body.foldl cfiStep []).reverse

/-- **C8 counterexample**: a function that is both deny-listed and placed in
the privileged section, containing a single unpredicated `tBX`, is *not*
returned unchanged by the CFI bit-masking pass: the pass inserts a `t2BFC`
before the transfer, so the instruction streams (and hence the code sizes)
differ. -/
theorem c8_denylist_counterexample :
    cfiRunMF true true [CFIInstr.tBXi 0 14] =
      [CFIInstr.t2BFCi 0 (-3) 14, CFIInstr.tBXi 0 14] ∧
    cfiRunMF true true [CFIInstr.tBXi 0 14] ≠ [CFIInstr.tBXi 0 14] := by
  constructor
  · rfl
  · decide

/-- **C8 amended**: the label-CFI and store privilege-demotion passes return
a function unchanged when its name is deny-listed *or* its section is
privileged; the SFI and shadow-stack passes return it unchanged when the
name is deny-listed (they do not check the privileged section); the CFI
bit-masking pass checks neither and transforms deny-listed, privileged
functions (witnessed by the single-`tBX` function). -/
theorem c8_denylist_amended :
    (∀ (α : Type) (instrument : List α → List α) (bl priv : Bool)
        (body : List α), (bl || priv) = true →
        str2strtRunMF instrument bl priv body = body) ∧
    (∀ (invert str2strt : Bool) (freeRegs : List Nat) (bl priv : Bool)
        (body : List LInstr), (bl || priv) = true →
        labelCFIRunMF invert str2strt freeRegs bl priv body = body) ∧
    (∀ (α : Type) (instrument : List α → List α) (bl priv : Bool)
        (body : List α), bl = true →
        sfiRunMF instrument bl priv body = body) ∧
    (∀ (α : Type) (instrument : List α → List α) (bl priv : Bool)
        (body : List α), bl = true →
        shadowStackRunMF instrument bl priv body = body) ∧
    cfiRunMF true true [CFIInstr.tBXi 0 14] ≠ [CFIInstr.tBXi 0 14] := by
  refine ⟨?_, ?_, ?_, ?_, by decide⟩
  · intro α instrument bl priv body h
    simp [str2strtRunMF, h]
  · intro invert str2strt freeRegs bl priv body h
    simp [labelCFIRunMF, h]
  · intro α instrument bl priv body h
    simp [sfiRunMF, h]
  · intro α instrument bl priv body h
    simp [shadowStackRunMF, h]

/-- Witness for `c8_denylist_amended`: a deny-listed function is returned
unchanged by the four passes that check the deny list. -/
theorem c8_denylist_amended_witness :
    str2strtRunMF (fun l => l ++ l) true false [0] = [0] ∧
    labelCFIRunMF false false [] true false [LInstr.otherL 0] = [LInstr.otherL 0] ∧
    sfiRunMF (fun l => l ++ l) true false [0] = [0] ∧
    shadowStackRunMF (fun l => l ++ l) true false [0] = [0] :=
  ⟨c8_denylist_amended.1 Nat (fun l => l ++ l) true false [0] rfl,
   c8_denylist_amended.2.1 false false [] true false [LInstr.otherL 0] rfl,
   c8_denylist_amended.2.2.1 Nat (fun l => l ++ l) true false [0] rfl,
   c8_denylist_amended.2.2.2.1 Nat (fun l => l ++ l) true false [0] rfl⟩

end Silhouette
